import Mathlib

/-!
Beta_Function (newEndeavour/Beta_Function): Lean model of `src/Beta_Function.cpp`.

The C++ file computes the Beta function, its logarithm, the Beta distribution
function (regularised incomplete Beta) and the incomplete Beta integral.

Modelling decisions.

* Numbers.  `double` and `long double` are both read as one linearly ordered
  field `α` (exact arithmetic, no rounding); the casts between the two C types
  are the identity.  Every definition is polymorphic in `α`, so it runs on `ℚ`
  and is reasoned about on `ℝ`.
* What the file takes from outside (`Gamma_Function.h`, `math.h`, `float.h`)
  is gathered in `Platform`: the Gamma provider, `expl`, `logl`, `powl` and the
  three limits.  `fabsl` is the absolute value of the field.
* The `while` loop of `Beta_Continued_Fraction` has no iteration cap, and the
  region recursion has no depth cap.  The model gives each a budget and
  reports which of the two ran out (`Fault`).
* The loop counters `j`, `m`, `k` are C `int`s that only count upwards from
  `0`; they are natural numbers here (no wrap-around).
* The depth budget counts nested activations of the region dispatch, so a
  budget of `s + 1` allows `s` nested reduction steps.
-/

namespace BetaFunction

/-- Reason why an evaluation of the model ends without a value. -/
inductive Fault where
  /-- The loop of `Beta_Continued_Fraction` still wanted to iterate when the
  iteration budget was used up. -/
  | iterations
  /-- The region recursion still wanted to call itself when the depth budget
  was used up. -/
  | depth
  deriving DecidableEq

/-- Everything `Beta_Function.cpp` uses but does not define. -/
structure Platform (α : Type) where
  /-- `xGamma_Function` of `Gamma_Function.h`. -/
  xGamma_Function : α → α
  /-- `xLn_Gamma_Function` of `Gamma_Function.h`. -/
  xLn_Gamma_Function : α → α
  /-- `Gamma_Function_Max_Arg()` of `Gamma_Function.h`. -/
  Gamma_Function_Max_Arg : α
  /-- `expl` of `math.h`. -/
  expl : α → α
  /-- `logl` of `math.h`. -/
  logl : α → α
  /-- `powl` of `math.h`. -/
  powl : α → α → α
  /-- `DBL_MAX` of `float.h`. -/
  DBL_MAX : α
  /-- `LDBL_MAX` of `float.h`. -/
  LDBL_MAX : α
  /-- `LDBL_EPSILON` of `float.h`. -/
  LDBL_EPSILON : α

/-- The same platform with another value of `Gamma_Function_Max_Arg()`. -/
def Platform.withMaxArg {α : Type} (P : Platform α) (M : α) : Platform α :=
  ⟨P.xGamma_Function, P.xLn_Gamma_Function, M, P.expl, P.logl, P.powl,
    P.DBL_MAX, P.LDBL_MAX, P.LDBL_EPSILON⟩

section Model

variable {α : Type} [LinearOrderedField α]

/-- The constant `static const long double ln_LDBL_MAX = 1.13565234062941435e+4L`. -/
def ln_LDBL_MAX : α := 113565234062941435 / 10000000000000

/-- The function `xBeta_Function` (lines 74-91). -/
def xBeta_Function (P : Platform α) (a b : α) : α :=
  if a + b ≤ P.Gamma_Function_Max_Arg then
    P.xGamma_Function a / (P.xGamma_Function (a + b) / P.xGamma_Function b)
  else
    let lnbeta := P.xLn_Gamma_Function a + P.xLn_Gamma_Function b
                    - P.xLn_Gamma_Function (a + b)
    if lnbeta > ln_LDBL_MAX then P.LDBL_MAX else P.expl lnbeta

/-- The function `Beta_Function` (lines 65-70). -/
def Beta_Function (P : Platform α) (a b : α) : α :=
  let beta := xBeta_Function P a b
  if beta < P.DBL_MAX then beta else P.DBL_MAX

/-- The function `xLn_Beta_Function` (lines 102-117). -/
def xLn_Beta_Function (P : Platform α) (a b : α) : α :=
  if a + b ≤ P.Gamma_Function_Max_Arg then
    if a = 1 ∧ b = 1 then 0
    else P.logl (P.xGamma_Function a / (P.xGamma_Function (a + b) / P.xGamma_Function b))
  else
    P.xLn_Gamma_Function a + P.xLn_Gamma_Function b - P.xLn_Gamma_Function (a + b)

/-- The function `Ln_Beta_Function` (lines 95-98). -/
def Ln_Beta_Function (P : Platform α) (a b : α) : α :=
  xLn_Beta_Function P a b

/-- The local variables of `Beta_Continued_Fraction` (lines 177-191), `eps`
apart, which never changes. -/
structure CFState (α : Type) where
  Am1 : α
  A0 : α
  Bm1 : α
  B_0 : α
  e : α
  Ap1 : α
  Bp1 : α
  f_less : α
  f_greater : α
  aj : α
  am : α
  j : Nat
  m : Nat
  k : Nat

/-- The initialisers of lines 177-191. -/
def cfInit (a : α) : CFState α :=
  let Am1 : α := 1
  let A0 : α := 0
  let Bm1 : α := 0
  let B_0 : α := 1
  let e : α := 1
  let Ap1 := A0 + e * Am1
  let Bp1 := B_0 + e * Bm1
  ⟨Am1, A0, Bm1, B_0, e, Ap1, Bp1, Ap1 / Bp1, 0, a, a, 0, 0, 1⟩

/-- The value `static long double eps = 10.0L * LDBL_EPSILON` (line 188). -/
def cfEps (P : Platform α) : α := 10 * P.LDBL_EPSILON

/-- The loop test of line 197. -/
def cfCond (P : Platform α) (s : CFState α) : Prop :=
  2 * |s.f_greater - s.f_less| > cfEps P * |s.f_greater + s.f_less|

instance (P : Platform α) (s : CFState α) : Decidable (cfCond P s) := by
  unfold cfCond; infer_instance

/-- One pass through the loop body, lines 198-238. -/
def cfBody (x a b : α) (s : CFState α) : CFState α :=
  -- lines 198-206
  let Am1 := s.A0
  let A0 := s.Ap1
  let Bm1 := s.B_0
  let B_0 := s.Bp1
  let am := a + (s.m : α)
  let e := (-am) * (am + b) * x / ((s.aj + 1) * s.aj)
  let Ap1 := A0 + e * Am1
  let Bp1 := B_0 + e * Bm1
  let k := (s.k + 1) &&& 3
  -- lines 208-212
  let f_less := if k = 1 then Ap1 / Bp1 else s.f_less
  let f_greater := if k = 1 then s.f_greater else if k = 3 then Ap1 / Bp1 else s.f_greater
  -- lines 214-224
  let Am1r := if |Bp1| > 1 then A0 / Bp1 else A0
  let A0r := if |Bp1| > 1 then Ap1 / Bp1 else Ap1
  let Bm1r := if |Bp1| > 1 then B_0 / Bp1 else B_0
  let B_0r := if |Bp1| > 1 then 1 else Bp1
  -- lines 226-232
  let m := s.m + 1
  let j := s.j + 2
  let aj := a + (j : α)
  let e2 := (m : α) * (b - (m : α)) * x / ((aj - 1) * aj)
  let Ap2 := A0r + e2 * Am1r
  let Bp2 := B_0r + e2 * Bm1r
  let k2 := (k + 1) &&& 3
  -- lines 234-238
  let f_less2 := if k2 = 1 then Ap2 / Bp2 else f_less
  let f_greater2 := if k2 = 1 then f_greater else if k2 = 3 then Ap2 / Bp2 else f_greater
  ⟨Am1r, A0r, Bm1r, B_0r, e2, Ap2, Bp2, f_less2, f_greater2, aj, am, j, m, k2⟩

/-- The `while` loop of lines 197-239 with at most `n` passes through its
body. -/
def cfLoop (P : Platform α) (x a b : α) : Nat → CFState α → Except Fault (CFState α)
  | 0, s => if cfCond P s then .error .iterations else .ok s
  | n + 1, s => if cfCond P s then cfLoop P x a b n (cfBody x a b s) else .ok s

/-- The function `Beta_Continued_Fraction` (lines 174-244); `n` bounds the
number of loop iterations. -/
def Beta_Continued_Fraction (P : Platform α) (n : Nat) (x a b : α) : Except Fault α :=
  if x = 0 then .ok 0
  else
    match cfLoop P x a b n (cfInit a) with
    | .error f => .error f
    | .ok s =>
      .ok (P.expl (a * P.logl x + b * P.logl (1 - x) + P.logl (s.Ap1 / s.Bp1))
            / (a * xBeta_Function P a b))

/-- The function `xBeta_Distribution_Func` (lines 135-170); `n` bounds the
iterations of every continued fraction, the next argument bounds the number
of nested activations of the function. -/
def xBeta_Distribution_Func (P : Platform α) (n : Nat) : Nat → α → α → α → Except Fault α
  | 0, _, _, _ => .error .depth
  | d + 1, x, a, b =>
    if a > 1 ∧ b > 1 then
      if x ≤ (a - 1) / (a + b - 2) then
        Beta_Continued_Fraction P n x a b
      else
        match Beta_Continued_Fraction P n (1 - x) b a with
        | .error f => .error f
        | .ok c => .ok (1 - c)
    else if a < 1 ∧ b < 1 then
      match xBeta_Distribution_Func P n d x (a + 1) b,
            xBeta_Distribution_Func P n d x a (b + 1) with
      | .ok u, .ok v => .ok ((a * u + b * v) / (a + b))
      | .error f, _ => .error f
      | .ok _, .error f => .error f
    else if a = 1 then
      .ok (1 - P.powl (1 - x) b / (b * xBeta_Function P a b))
    else if b = 1 then
      .ok (P.powl x a / (a * xBeta_Function P a b))
    else if a < 1 then
      match xBeta_Distribution_Func P n d x (a + 1) b with
      | .error f => .error f
      | .ok u => .ok (u + P.powl x a * P.powl (1 - x) b / (a * xBeta_Function P a b))
    else
      match xBeta_Distribution_Func P n d x a (b + 1) with
      | .error f => .error f
      | .ok v => .ok (v - P.powl x a * P.powl (1 - x) b / (b * xBeta_Function P a b))

/-- The function `Beta_Distribution_Func` (lines 121-131). -/
def Beta_Distribution_Func (P : Platform α) (n d : Nat) (x a b : α) : Except Fault α :=
  if x ≤ 0 then .ok 0
  else if x ≥ 1 then .ok 1
  else xBeta_Distribution_Func P n d x a b

/-- The function `xIncomplete_Beta_Function` (lines 258-290), with the same
two budgets as `xBeta_Distribution_Func`. -/
def xIncomplete_Beta_Function (P : Platform α) (n : Nat) : Nat → α → α → α → Except Fault α
  | 0, _, _, _ => .error .depth
  | d + 1, x, a, b =>
    if a > 1 ∧ b > 1 then
      if x ≤ (a - 1) / (a + b - 2) then
        Beta_Continued_Fraction P n x a b
      else
        match Beta_Continued_Fraction P n (1 - x) b a with
        | .error f => .error f
        | .ok c => .ok (xBeta_Function P a b - c)
    else if a < 1 ∧ b < 1 then
      match xIncomplete_Beta_Function P n d x (a + 1) b,
            xIncomplete_Beta_Function P n d x a (b + 1) with
      | .ok u, .ok v => .ok (u + v)
      | .error f, _ => .error f
      | .ok _, .error f => .error f
    else if a = 1 then
      .ok ((1 - P.powl (1 - x) b) / b)
    else if b = 1 then
      .ok (P.powl x a / a)
    else if a < 1 then
      match xIncomplete_Beta_Function P n d x (a + 1) b with
      | .error f => .error f
      | .ok u => .ok (((a + b) * u + P.powl x a * P.powl (1 - x) b) / a)
    else
      match xIncomplete_Beta_Function P n d x a (b + 1) with
      | .error f => .error f
      | .ok v => .ok (((a + b) * v - P.powl x a * P.powl (1 - x) b) / b)

/-- The function `Incomplete_Beta_Function` (lines 248-254). -/
def Incomplete_Beta_Function (P : Platform α) (n d : Nat) (x a b : α) : Except Fault α :=
  match xIncomplete_Beta_Function P n d x a b with
  | .error f => .error f
  | .ok beta => .ok (if beta > P.DBL_MAX then P.DBL_MAX else beta)

/-- Follows the spec's words, not the source ("the same loop with the
`fabsl(Bp1) > 1` branch removed"): the loop body of `Beta_Continued_Fraction`
in which the plain shift of lines 220-223 is always taken and the four terms
are never divided by `Bp1`.  Everything else is as in `cfBody`. -/
def cfBodyPlain (x a b : α) (s : CFState α) : CFState α :=
  let Am1 := s.A0
  let A0 := s.Ap1
  let Bm1 := s.B_0
  let B_0 := s.Bp1
  let am := a + (s.m : α)
  let e := (-am) * (am + b) * x / ((s.aj + 1) * s.aj)
  let Ap1 := A0 + e * Am1
  let Bp1 := B_0 + e * Bm1
  let k := (s.k + 1) &&& 3
  let f_less := if k = 1 then Ap1 / Bp1 else s.f_less
  let f_greater := if k = 1 then s.f_greater else if k = 3 then Ap1 / Bp1 else s.f_greater
  let Am1r := A0
  let A0r := Ap1
  let Bm1r := B_0
  let B_0r := Bp1
  let m := s.m + 1
  let j := s.j + 2
  let aj := a + (j : α)
  let e2 := (m : α) * (b - (m : α)) * x / ((aj - 1) * aj)
  let Ap2 := A0r + e2 * Am1r
  let Bp2 := B_0r + e2 * Bm1r
  let k2 := (k + 1) &&& 3
  let f_less2 := if k2 = 1 then Ap2 / Bp2 else f_less
  let f_greater2 := if k2 = 1 then f_greater else if k2 = 3 then Ap2 / Bp2 else f_greater
  ⟨Am1r, A0r, Bm1r, B_0r, e2, Ap2, Bp2, f_less2, f_greater2, aj, am, j, m, k2⟩

/-- The state `s` is the state `t` with the six running terms `Am1`, `A0`,
`Bm1`, `B_0`, `Ap1`, `Bp1` multiplied by `c`, and everything else equal. -/
def CFState.Scaled (c : α) (s t : CFState α) : Prop :=
  s.Am1 = c * t.Am1 ∧ s.A0 = c * t.A0 ∧ s.Bm1 = c * t.Bm1 ∧ s.B_0 = c * t.B_0 ∧
  s.e = t.e ∧ s.Ap1 = c * t.Ap1 ∧ s.Bp1 = c * t.Bp1 ∧
  s.f_less = t.f_less ∧ s.f_greater = t.f_greater ∧ s.aj = t.aj ∧ s.am = t.am ∧
  s.j = t.j ∧ s.m = t.m ∧ s.k = t.k

/-- The six branches of the region dispatch in `xBeta_Distribution_Func` and
`xIncomplete_Beta_Function`, in the order of the source. -/
inductive Region where
  /-- Lines 143-147 and 262-267: the continued fraction. -/
  | continuedFraction
  /-- Lines 150-152 and 270-272. -/
  | bothBelow
  /-- Lines 155-156 and 275-276. -/
  | aOne
  /-- Lines 158-159 and 278-279. -/
  | bOne
  /-- Lines 162-164 and 282-284. -/
  | aBelow
  /-- Lines 167-168 and 287-288: the unconditional last `return`. -/
  | bBelow
  deriving DecidableEq

/-- The branch that the sequential conditionals of lines 143-168 (and, with
the same tests, of lines 262-288) execute. -/
def selectedBranch (a b : α) : Region :=
  if a > 1 ∧ b > 1 then .continuedFraction
  else if a < 1 ∧ b < 1 then .bothBelow
  else if a = 1 then .aOne
  else if b = 1 then .bOne
  else if a < 1 then .aBelow
  else .bBelow

/-- Follows the spec's words: the region that names each branch,
`a>1 ∧ b>1`, `a<1 ∧ b<1`, `a=1`, `b=1 ∧ a≠1`, `a<1 ∧ b>1`, `a>1 ∧ b<1`. -/
def Region.holds (a b : α) : Region → Prop
  | .continuedFraction => a > 1 ∧ b > 1
  | .bothBelow => a < 1 ∧ b < 1
  | .aOne => a = 1
  | .bOne => b = 1 ∧ a ≠ 1
  | .aBelow => a < 1 ∧ b > 1
  | .bBelow => a > 1 ∧ b < 1

/-- Follows the spec's words ("a single tagged dispatch"): the formula of each
region of `xBeta_Distribution_Func`, selected by the tag; `inner` stands for
the nested evaluation of the function. -/
def cdfBranch (P : Platform α) (n : Nat) (inner : α → α → α → Except Fault α)
    (x a b : α) : Region → Except Fault α
  | .continuedFraction =>
    if x ≤ (a - 1) / (a + b - 2) then
      Beta_Continued_Fraction P n x a b
    else
      match Beta_Continued_Fraction P n (1 - x) b a with
      | .error f => .error f
      | .ok c => .ok (1 - c)
  | .bothBelow =>
    match inner x (a + 1) b, inner x a (b + 1) with
    | .ok u, .ok v => .ok ((a * u + b * v) / (a + b))
    | .error f, _ => .error f
    | .ok _, .error f => .error f
  | .aOne => .ok (1 - P.powl (1 - x) b / (b * xBeta_Function P a b))
  | .bOne => .ok (P.powl x a / (a * xBeta_Function P a b))
  | .aBelow =>
    match inner x (a + 1) b with
    | .error f => .error f
    | .ok u => .ok (u + P.powl x a * P.powl (1 - x) b / (a * xBeta_Function P a b))
  | .bBelow =>
    match inner x a (b + 1) with
    | .error f => .error f
    | .ok v => .ok (v - P.powl x a * P.powl (1 - x) b / (b * xBeta_Function P a b))

/-- Follows the spec's words ("a single tagged dispatch"): the formula of each
region of `xIncomplete_Beta_Function`, selected by the tag. -/
def rawBranch (P : Platform α) (n : Nat) (inner : α → α → α → Except Fault α)
    (x a b : α) : Region → Except Fault α
  | .continuedFraction =>
    if x ≤ (a - 1) / (a + b - 2) then
      Beta_Continued_Fraction P n x a b
    else
      match Beta_Continued_Fraction P n (1 - x) b a with
      | .error f => .error f
      | .ok c => .ok (xBeta_Function P a b - c)
  | .bothBelow =>
    match inner x (a + 1) b, inner x a (b + 1) with
    | .ok u, .ok v => .ok (u + v)
    | .error f, _ => .error f
    | .ok _, .error f => .error f
  | .aOne => .ok ((1 - P.powl (1 - x) b) / b)
  | .bOne => .ok (P.powl x a / a)
  | .aBelow =>
    match inner x (a + 1) b with
    | .error f => .error f
    | .ok u => .ok (((a + b) * u + P.powl x a * P.powl (1 - x) b) / a)
  | .bBelow =>
    match inner x a (b + 1) with
    | .error f => .error f
    | .ok v => .ok (((a + b) * v - P.powl x a * P.powl (1 - x) b) / b)

/-- Every fault with which `r` can end belongs to `S`. -/
def FaultsIn {β : Type} (S : Fault → Prop) (r : Except Fault β) : Prop :=
  ∀ f, r = .error f → S f

/-- An instance of `Platform` for tests: the limits of an x86 `double` and
80-bit `long double` (rounded up to powers of two), `171` for
`Gamma_Function_Max_Arg()`, and the given functions. -/
def Platform.x86 (Γ lnΓ ex lo : α → α) (pw : α → α → α) : Platform α :=
  ⟨Γ, lnΓ, 171, ex, lo, pw, 2 ^ 1024, 2 ^ 16384, 1 / 2 ^ 63⟩

end Model

/-- The platform computes `expl`, `logl` and `powl` as the real exponential,
natural logarithm and power. -/
structure Platform.ExactLibm (P : Platform ℝ) : Prop where
  expl_eq : ∀ t, P.expl t = Real.exp t
  logl_eq : ∀ t, P.logl t = Real.log t
  powl_eq : ∀ x y, P.powl x y = x ^ y

/-- The Gamma provider of the platform is exact on the positive reals. -/
structure Platform.ExactGamma (P : Platform ℝ) : Prop where
  gamma_eq : ∀ z, 0 < z → P.xGamma_Function z = Real.Gamma z
  lngamma_eq : ∀ z, 0 < z → P.xLn_Gamma_Function z = Real.log (Real.Gamma z)

/-! ## Theorems -/

theorem Gamma_three : Real.Gamma 3 = 2 := by
  rw [show (3 : ℝ) = ((2 : ℕ) : ℝ) + 1 by norm_num, Real.Gamma_nat_eq_factorial]
  norm_num [Nat.factorial]

theorem Gamma_four : Real.Gamma 4 = 6 := by
  rw [show (4 : ℝ) = ((3 : ℕ) : ℝ) + 1 by norm_num, Real.Gamma_nat_eq_factorial]
  norm_num [Nat.factorial]

theorem Gamma_five : Real.Gamma 5 = 24 := by
  rw [show (5 : ℝ) = ((4 : ℕ) : ℝ) + 1 by norm_num, Real.Gamma_nat_eq_factorial]
  norm_num [Nat.factorial]

section Generic

variable {α : Type} [LinearOrderedField α]

theorem xBeta_Function_comm (P : Platform α) (a b : α) :
    xBeta_Function P a b = xBeta_Function P b a := by
  unfold xBeta_Function
  rw [add_comm b a, div_div_eq_mul_div, div_div_eq_mul_div, mul_comm (P.xGamma_Function b),
    add_comm (P.xLn_Gamma_Function b)]

theorem land_one : (1 &&& 3 : ℕ) = 1 := by decide

theorem land_two : (2 &&& 3 : ℕ) = 2 := by decide

theorem land_three : (3 &&& 3 : ℕ) = 3 := by decide

theorem land_four : (4 &&& 3 : ℕ) = 0 := by decide

/-- Once the loop test fails the loop returns its state, whatever budget is left. -/
theorem cfLoop_of_not_cfCond (P : Platform α) (x a b : α) (n : Nat) (s : CFState α)
    (h : ¬ cfCond P s) : cfLoop P x a b n s = .ok s := by
  cases n <;> simp [cfLoop, h]

/-- First pass of the loop for `x = 1/2`, `a = b = 2`. -/
theorem cfBody_half_two_two_1 :
    cfBody (1 / 2 : α) 2 2 (cfInit 2)
      = ⟨1, 1, 1, 1 / 3, 1 / 24, 25 / 24, 3 / 8, 1, 25 / 9, 4, 2, 2, 1, 3⟩ := by
  simp [cfBody, cfInit, land_two, land_three, abs_div]
  norm_num [abs_of_pos]

/-- Second pass of the loop for `x = 1/2`, `a = b = 2`. -/
theorem cfBody_half_two_two_2 :
    cfBody (1 / 2 : α) 2 2 ⟨1, 1, 1, 1 / 3, 1 / 24, 25 / 24, 3 / 8, 1, 25 / 9, 4, 2, 2, 1, 3⟩
      = ⟨25 / 24, 2 / 3, 3 / 8, 1 / 4, 0, 2 / 3, 1 / 4, 8 / 3, 25 / 9, 6, 3, 4, 2, 1⟩ := by
  simp [cfBody, land_four, land_one, abs_div]
  norm_num [abs_of_pos]

/-- Third pass of the loop for `x = 1/2`, `a = b = 2`. -/
theorem cfBody_half_two_two_3 :
    cfBody (1 / 2 : α) 2 2
        ⟨25 / 24, 2 / 3, 3 / 8, 1 / 4, 0, 2 / 3, 1 / 4, 8 / 3, 25 / 9, 6, 3, 4, 2, 1⟩
      = ⟨2 / 3, 10 / 21, 1 / 4, 5 / 28, -3 / 112, 11 / 24, 11 / 64, 8 / 3, 8 / 3,
          8, 4, 6, 3, 3⟩ := by
  simp [cfBody, land_two, land_three, abs_div]
  norm_num [abs_of_pos]

/-- The loop for `x = 1/2`, `a = b = 2` makes exactly three passes: a budget
of three or more returns the state after the third pass, a budget of two
does not suffice. -/
theorem cfLoop_half_two_two (P : Platform α) (h0 : 0 ≤ P.LDBL_EPSILON)
    (h1 : 10 * P.LDBL_EPSILON < 2 / 49) (n : Nat) :
    cfLoop P (1 / 2) 2 2 (n + 3) (cfInit 2)
      = .ok ⟨2 / 3, 10 / 21, 1 / 4, 5 / 28, -3 / 112, 11 / 24, 11 / 64, 8 / 3, 8 / 3,
          8, 4, 6, 3, 3⟩ ∧
    cfLoop P (1 / 2) 2 2 2 (cfInit 2) = .error .iterations := by
  have c0 : cfCond P (cfInit 2) := by
    simp only [cfCond, cfEps, cfInit]
    norm_num
    linarith
  have c1 : cfCond P (⟨1, 1, 1, 1 / 3, 1 / 24, 25 / 24, 3 / 8, 1, 25 / 9, 4, 2, 2, 1, 3⟩ :
      CFState α) := by
    simp only [cfCond, cfEps]
    norm_num [abs_of_pos]
    linarith
  have c2 : cfCond P (⟨25 / 24, 2 / 3, 3 / 8, 1 / 4, 0, 2 / 3, 1 / 4, 8 / 3, 25 / 9,
      6, 3, 4, 2, 1⟩ : CFState α) := by
    simp only [cfCond, cfEps]
    norm_num [abs_of_pos]
    linarith
  have c3 : ¬ cfCond P (⟨2 / 3, 10 / 21, 1 / 4, 5 / 28, -3 / 112, 11 / 24, 11 / 64, 8 / 3,
      8 / 3, 8, 4, 6, 3, 3⟩ : CFState α) := by
    simp only [cfCond, cfEps]
    norm_num [abs_of_pos]
    positivity
  constructor
  · rw [cfLoop, if_pos c0, cfBody_half_two_two_1, cfLoop, if_pos c1, cfBody_half_two_two_2,
      cfLoop, if_pos c2, cfBody_half_two_two_3]
    exact cfLoop_of_not_cfCond P _ _ _ _ _ c3
  · rw [cfLoop, if_pos c0, cfBody_half_two_two_1, cfLoop, if_pos c1, cfBody_half_two_two_2,
      cfLoop, if_pos c2]

end Generic

/-- On a platform with exact `expl` and `logl`, `Gamma(2) = 1`, `Gamma(4) = 6`
and `Gamma_Function_Max_Arg() >= 4`, the continued fraction at `x = 1/2`,
`a = b = 2` returns `1/2` as soon as three iterations are allowed. -/
theorem Beta_Continued_Fraction_half_two_two (P : Platform ℝ) (hL : P.ExactLibm)
    (hΓ2 : P.xGamma_Function 2 = 1) (hΓ4 : P.xGamma_Function 4 = 6)
    (hM : 4 ≤ P.Gamma_Function_Max_Arg) (h0 : 0 ≤ P.LDBL_EPSILON)
    (h1 : 10 * P.LDBL_EPSILON < 2 / 49) (n : Nat) :
    Beta_Continued_Fraction P (n + 3) (1 / 2) 2 2 = .ok (1 / 2) := by
  have hB : xBeta_Function P 2 2 = 1 / 6 := by
    have h22 : (2 : ℝ) + 2 = 4 := by norm_num
    simp [xBeta_Function, h22, hM, hΓ2, hΓ4]
  have hx : (1 / 2 : ℝ) ≠ 0 := by norm_num
  simp only [Beta_Continued_Fraction, if_neg hx, (cfLoop_half_two_two P h0 h1 n).1, hB,
    hL.expl_eq, hL.logl_eq]
  have e1 : (1 : ℝ) - 1 / 2 = 1 / 2 := by norm_num
  have e2 : (11 / 24 : ℝ) / (11 / 64) = 8 / 3 := by norm_num
  rw [e1, e2, two_mul, Real.exp_add, Real.exp_add, Real.exp_add,
    Real.exp_log (by norm_num : (0 : ℝ) < 1 / 2), Real.exp_log (by norm_num : (0 : ℝ) < 8 / 3)]
  norm_num

/-- C1: `Beta_Distribution_Func(x,a,b)` is exactly `0` when `x <= 0` and exactly
`1` when `x >= 1`, for all `a`, `b`, whatever the budgets of the region
dispatch are (zero included: the dispatch is not entered); in particular the
value at `x = 0` is `0` and the value at `x = 1` is `1`. -/
theorem Beta_Distribution_Func_clamp {α : Type} [LinearOrderedField α]
    (P : Platform α) (n d : Nat) (x a b : α) :
    (x ≤ 0 → Beta_Distribution_Func P n d x a b = .ok 0) ∧
    (1 ≤ x → Beta_Distribution_Func P n d x a b = .ok 1) ∧
    Beta_Distribution_Func P n d 0 a b = .ok 0 ∧
    Beta_Distribution_Func P n d 1 a b = .ok 1 := by
  refine ⟨fun h => ?_, fun h => ?_, ?_, ?_⟩
  · simp [Beta_Distribution_Func, h]
  · have h0 : ¬ x ≤ 0 := not_le.mpr (lt_of_lt_of_le zero_lt_one h)
    simp [Beta_Distribution_Func, h, h0]
  · simp [Beta_Distribution_Func]
  · simp [Beta_Distribution_Func]

/-- Witness of C1 on the reals, with both budgets zero. -/
theorem Beta_Distribution_Func_clamp_witness :
    ((-1 : ℝ) ≤ 0 ∧
      Beta_Distribution_Func (Platform.x86 Real.Gamma (fun z => Real.log (Real.Gamma z))
        Real.exp Real.log (fun x y => x ^ y)) 0 0 (-1) 2 3 = .ok 0) ∧
    ((1 : ℝ) ≤ 7 / 2 ∧
      Beta_Distribution_Func (Platform.x86 Real.Gamma (fun z => Real.log (Real.Gamma z))
        Real.exp Real.log (fun x y => x ^ y)) 0 0 (7 / 2) 2 3 = .ok 1) :=
  ⟨⟨by norm_num, (Beta_Distribution_Func_clamp _ 0 0 (-1) 2 3).1 (by norm_num)⟩,
   ⟨by norm_num, (Beta_Distribution_Func_clamp _ 0 0 (7 / 2) 2 3).2.1 (by norm_num)⟩⟩

/-- C2: with the exact Gamma function as provider, for `a > 0`, `b > 0` and
`a + b <= Gamma_Function_Max_Arg()`, `xBeta_Function(a,b)` is
`Gamma(a)*Gamma(b)/Gamma(a+b)`; in particular `xBeta_Function(2,3)` and the
public `Beta_Function(2,3)` are `1/12`. -/
theorem xBeta_Function_eq_Gamma_ratio (P : Platform ℝ)
    (hΓ : ∀ z, 0 < z → P.xGamma_Function z = Real.Gamma z) :
    (∀ a b : ℝ, 0 < a → 0 < b → a + b ≤ P.Gamma_Function_Max_Arg →
      xBeta_Function P a b = Real.Gamma a * Real.Gamma b / Real.Gamma (a + b)) ∧
    (5 ≤ P.Gamma_Function_Max_Arg → xBeta_Function P 2 3 = 1 / 12) ∧
    (5 ≤ P.Gamma_Function_Max_Arg → 1 / 12 < P.DBL_MAX → Beta_Function P 2 3 = 1 / 12) := by
  have gen : ∀ a b : ℝ, 0 < a → 0 < b → a + b ≤ P.Gamma_Function_Max_Arg →
      xBeta_Function P a b = Real.Gamma a * Real.Gamma b / Real.Gamma (a + b) := by
    intro a b ha hb hab
    simp only [xBeta_Function, if_pos hab]
    rw [hΓ a ha, hΓ b hb, hΓ (a + b) (add_pos ha hb), div_div_eq_mul_div]
  have h23 : 5 ≤ P.Gamma_Function_Max_Arg → xBeta_Function P 2 3 = 1 / 12 := by
    intro hM
    rw [gen 2 3 (by norm_num) (by norm_num) (by norm_num; exact hM)]
    rw [Real.Gamma_two, Gamma_three, show (2 + 3 : ℝ) = 5 by norm_num, Gamma_five]
    norm_num
  refine ⟨gen, h23, fun hM hD => ?_⟩
  simp only [Beta_Function, h23 hM, if_pos hD]

/-- Witness of C2: the exact Gamma provider on the test platform. -/
theorem xBeta_Function_eq_Gamma_ratio_witness :
    xBeta_Function (Platform.x86 Real.Gamma (fun z => Real.log (Real.Gamma z))
        Real.exp Real.log (fun x y => x ^ y)) 2 3 = 1 / 12 ∧
    Beta_Function (Platform.x86 Real.Gamma (fun z => Real.log (Real.Gamma z))
        Real.exp Real.log (fun x y => x ^ y)) 2 3 = 1 / 12 :=
  ⟨(xBeta_Function_eq_Gamma_ratio _ (fun _ _ => rfl)).2.1 (by norm_num [Platform.x86]),
   (xBeta_Function_eq_Gamma_ratio _ (fun _ _ => rfl)).2.2 (by norm_num [Platform.x86])
     (by norm_num [Platform.x86])⟩

/-- C3: Beta is symmetric, `Beta_Function(a,b) = Beta_Function(b,a)` and
`xBeta_Function(a,b) = xBeta_Function(b,a)`, in the direct-ratio branch and in
the log-space branch alike (for all `a`, `b` and every Gamma provider, so in
particular for `a > 0`, `b > 0` and a positive one). -/
theorem Beta_Function_symm {α : Type} [LinearOrderedField α] (P : Platform α) (a b : α) :
    Beta_Function P a b = Beta_Function P b a ∧
    xBeta_Function P a b = xBeta_Function P b a ∧
    P.xGamma_Function a / (P.xGamma_Function (a + b) / P.xGamma_Function b)
      = P.xGamma_Function b / (P.xGamma_Function (b + a) / P.xGamma_Function a) ∧
    P.xLn_Gamma_Function a + P.xLn_Gamma_Function b - P.xLn_Gamma_Function (a + b)
      = P.xLn_Gamma_Function b + P.xLn_Gamma_Function a - P.xLn_Gamma_Function (b + a) := by
  refine ⟨?_, xBeta_Function_comm P a b, ?_, ?_⟩
  · simp only [Beta_Function, xBeta_Function_comm P a b]
  · rw [add_comm b a, div_div_eq_mul_div, div_div_eq_mul_div, mul_comm]
  · rw [add_comm b a, add_comm (P.xLn_Gamma_Function b)]

/-- C6 (as stated, refuted): at `x = 1`, `a = 1/2`, `b = 2` on the exact
platform, `G(x,a+1,b)` is `Beta(3/2,2) > 0` and `G(x,a,b)` is five times
that, which is not `G(x,a+1,b) + x^a(1-x)^b / a`. -/
theorem xIncomplete_Beta_Function_recurrence_counterexample :
    xIncomplete_Beta_Function (Platform.x86 Real.Gamma (fun z => Real.log (Real.Gamma z))
        Real.exp Real.log (fun x y => x ^ y)) 0 2 1 (1 / 2) 2
      = .ok (5 * (Real.Gamma (1 / 2 + 1) / (Real.Gamma (1 / 2 + 1 + 2) / Real.Gamma 2))) ∧
    xIncomplete_Beta_Function (Platform.x86 Real.Gamma (fun z => Real.log (Real.Gamma z))
        Real.exp Real.log (fun x y => x ^ y)) 0 1 1 (1 / 2 + 1) 2
      = .ok (Real.Gamma (1 / 2 + 1) / (Real.Gamma (1 / 2 + 1 + 2) / Real.Gamma 2)) ∧
    5 * (Real.Gamma (1 / 2 + 1) / (Real.Gamma (1 / 2 + 1 + 2) / Real.Gamma 2))
      ≠ Real.Gamma (1 / 2 + 1) / (Real.Gamma (1 / 2 + 1 + 2) / Real.Gamma 2)
        + (1 : ℝ) ^ (1 / 2 : ℝ) * (1 - 1 : ℝ) ^ (2 : ℝ) / (1 / 2) := by
  have hB : (0 : ℝ) < Real.Gamma (1 / 2 + 1) / (Real.Gamma (1 / 2 + 1 + 2) / Real.Gamma 2) :=
    div_pos (Real.Gamma_pos_of_pos (by norm_num))
      (div_pos (Real.Gamma_pos_of_pos (by norm_num)) (Real.Gamma_pos_of_pos (by norm_num)))
  refine ⟨?_, ?_, ?_⟩
  · norm_num [xIncomplete_Beta_Function, Beta_Continued_Fraction, xBeta_Function, Platform.x86]
    ring
  · norm_num [xIncomplete_Beta_Function, Beta_Continued_Fraction, xBeta_Function, Platform.x86]
  · norm_num at hB ⊢
    linarith

/-- C6 (amended): in `G = xIncomplete_Beta_Function`, when exactly one shape
parameter is below `1` and neither is `1`: for `a < 1`,
`G(x,a,b) = ((a+b)*G(x,a+1,b) + x^a(1-x)^b) / a`; for `b < 1`,
`G(x,a,b) = ((a+b)*G(x,a,b+1) - x^a(1-x)^b) / b`. -/
theorem xIncomplete_Beta_Function_recurrence {α : Type} [LinearOrderedField α]
    (P : Platform α) (n d : Nat) (x a b : α) :
    (a < 1 → 1 < b → ∀ u, xIncomplete_Beta_Function P n d x (a + 1) b = .ok u →
      xIncomplete_Beta_Function P n (d + 1) x a b
        = .ok (((a + b) * u + P.powl x a * P.powl (1 - x) b) / a)) ∧
    (1 < a → b < 1 → ∀ v, xIncomplete_Beta_Function P n d x a (b + 1) = .ok v →
      xIncomplete_Beta_Function P n (d + 1) x a b
        = .ok (((a + b) * v - P.powl x a * P.powl (1 - x) b) / b)) := by
  constructor
  · intro ha hb u hu
    have h1 : ¬ (1 < a) := not_lt.mpr ha.le
    have h2 : ¬ (b < 1) := not_lt.mpr hb.le
    simp [xIncomplete_Beta_Function, h1, h2, ha, ha.ne, hb.ne', hu]
  · intro ha hb v hv
    have h1 : ¬ (1 < b) := not_lt.mpr hb.le
    have h2 : ¬ (a < 1) := not_lt.mpr ha.le
    simp [xIncomplete_Beta_Function, h1, h2, ha.ne', hb.ne, hv]

/-- Witness of C6 (amended) at `x = 1`, `a = 1/2`, `b = 2`, where the inner
call returns `Beta(3/2, 2)`. -/
theorem xIncomplete_Beta_Function_recurrence_witness :
    xIncomplete_Beta_Function (Platform.x86 Real.Gamma (fun z => Real.log (Real.Gamma z))
        Real.exp Real.log (fun x y => x ^ y)) 0 2 1 (1 / 2) 2
      = .ok (((1 / 2 + 2) * (Real.Gamma (1 / 2 + 1) / (Real.Gamma (1 / 2 + 1 + 2) / Real.Gamma 2))
          + (1 : ℝ) ^ (1 / 2 : ℝ) * (1 - 1 : ℝ) ^ (2 : ℝ)) / (1 / 2)) :=
  (xIncomplete_Beta_Function_recurrence _ 0 1 1 (1 / 2) 2).1 (by norm_num) (by norm_num) _
    (by norm_num [xIncomplete_Beta_Function, Beta_Continued_Fraction, xBeta_Function,
      Platform.x86])

/-- C7: with `Gamma(1) = Gamma(2) = 1`, `Gamma_Function_Max_Arg() >= 2` and
`powl(y,1) = y`, `Beta_Distribution_Func(x,1,1) = x` for every `x` in `[0,1]`:
at `x = 0` and `x = 1` by the clamp (for any depth budget), and for
`0 < x < 1` by the `a = 1` closed form `1 - (1-x)^b / (b*Beta(a,b))`. -/
theorem Beta_Distribution_Func_one_one {α : Type} [LinearOrderedField α]
    (P : Platform α) (hΓ1 : P.xGamma_Function 1 = 1) (hΓ2 : P.xGamma_Function 2 = 1)
    (hM : 2 ≤ P.Gamma_Function_Max_Arg) (hpow : ∀ y, P.powl y 1 = y)
    (n d : Nat) (x : α) (h0 : 0 ≤ x) (h1 : x ≤ 1) :
    Beta_Distribution_Func P n (d + 1) x 1 1 = .ok x ∧
    (x = 0 ∨ x = 1 → Beta_Distribution_Func P n 0 x 1 1 = .ok x) ∧
    (0 < x → x < 1 →
      Beta_Distribution_Func P n (d + 1) x 1 1
        = .ok (1 - P.powl (1 - x) 1 / (1 * xBeta_Function P 1 1))) := by
  have hB : xBeta_Function P 1 1 = 1 := by
    simp [xBeta_Function, one_add_one_eq_two, hM, hΓ1, hΓ2]
  have mid : 0 < x → x < 1 →
      Beta_Distribution_Func P n (d + 1) x 1 1
        = .ok (1 - P.powl (1 - x) 1 / (1 * xBeta_Function P 1 1)) := by
    intro hx0 hx1
    simp [Beta_Distribution_Func, xBeta_Distribution_Func, not_le.mpr hx0, not_le.mpr hx1]
  refine ⟨?_, ?_, mid⟩
  · rcases h0.eq_or_lt with h | h
    · subst h; simp [Beta_Distribution_Func]
    · rcases h1.eq_or_lt with h' | h'
      · subst h'; simp [Beta_Distribution_Func]
      · rw [mid h h', hB, hpow]; simp
  · rintro (h | h) <;> subst h <;> simp [Beta_Distribution_Func]

/-- Witness of C7: `x = 0.3` on the exact platform. -/
theorem Beta_Distribution_Func_one_one_witness :
    Beta_Distribution_Func (Platform.x86 Real.Gamma (fun z => Real.log (Real.Gamma z))
        Real.exp Real.log (fun x y => x ^ y)) 0 1 (3 / 10) 1 1 = .ok (3 / 10) :=
  (Beta_Distribution_Func_one_one _ Real.Gamma_one Real.Gamma_two (by norm_num [Platform.x86])
    (fun y => Real.rpow_one y) 0 0 (3 / 10) (by norm_num) (by norm_num)).1

/-- C9: `xBeta_Distribution_Func(x,a,b)` computes the regularised column of
the region table: `CF(x,a,b)` if `a>1`, `b>1`, `x <= (a-1)/(a+b-2)`;
`1 - CF(1-x,b,a)` if `a>1`, `b>1` and `x` above that threshold;
`(a*F(x,a+1,b) + b*F(x,a,b+1))/(a+b)` if `a<1`, `b<1`;
`1 - (1-x)^b/(b*Beta(a,b))` if `a=1`; `x^a/(a*Beta(a,b))` if `b=1`, `a≠1`;
`F(x,a+1,b) + x^a(1-x)^b/(a*Beta(a,b))` if `a<1` otherwise;
`F(x,a,b+1) - x^a(1-x)^b/(b*Beta(a,b))` in the remaining case. -/
theorem xBeta_Distribution_Func_regions {α : Type} [LinearOrderedField α]
    (P : Platform α) (n d : Nat) (x a b : α) :
    (1 < a → 1 < b → x ≤ (a - 1) / (a + b - 2) →
      xBeta_Distribution_Func P n (d + 1) x a b = Beta_Continued_Fraction P n x a b) ∧
    (1 < a → 1 < b → ¬ x ≤ (a - 1) / (a + b - 2) →
      ∀ c, Beta_Continued_Fraction P n (1 - x) b a = .ok c →
        xBeta_Distribution_Func P n (d + 1) x a b = .ok (1 - c)) ∧
    (a < 1 → b < 1 →
      ∀ u v, xBeta_Distribution_Func P n d x (a + 1) b = .ok u →
        xBeta_Distribution_Func P n d x a (b + 1) = .ok v →
        xBeta_Distribution_Func P n (d + 1) x a b = .ok ((a * u + b * v) / (a + b))) ∧
    (a = 1 →
      xBeta_Distribution_Func P n (d + 1) x a b
        = .ok (1 - P.powl (1 - x) b / (b * xBeta_Function P a b))) ∧
    (b = 1 → a ≠ 1 →
      xBeta_Distribution_Func P n (d + 1) x a b
        = .ok (P.powl x a / (a * xBeta_Function P a b))) ∧
    (¬ (1 < a ∧ 1 < b) → ¬ (a < 1 ∧ b < 1) → a ≠ 1 → b ≠ 1 → a < 1 →
      ∀ u, xBeta_Distribution_Func P n d x (a + 1) b = .ok u →
        xBeta_Distribution_Func P n (d + 1) x a b
          = .ok (u + P.powl x a * P.powl (1 - x) b / (a * xBeta_Function P a b))) ∧
    (¬ (1 < a ∧ 1 < b) → ¬ (a < 1 ∧ b < 1) → a ≠ 1 → b ≠ 1 → ¬ a < 1 →
      ∀ v, xBeta_Distribution_Func P n d x a (b + 1) = .ok v →
        xBeta_Distribution_Func P n (d + 1) x a b
          = .ok (v - P.powl x a * P.powl (1 - x) b / (b * xBeta_Function P a b))) := by
  refine ⟨?_, ?_, ?_, ?_, ?_, ?_, ?_⟩
  · intro ha hb hx
    simp [xBeta_Distribution_Func, ha, hb, hx]
  · intro ha hb hx c hc
    rw [not_le] at hx
    simp [xBeta_Distribution_Func, ha, hb, not_le.mpr hx, hc]
  · intro ha hb u v hu hv
    have h1 : ¬ (1 < a) := not_lt.mpr ha.le
    simp [xBeta_Distribution_Func, h1, ha, hb, hu, hv]
  · intro ha
    subst ha
    simp [xBeta_Distribution_Func]
  · intro hb ha
    subst hb
    simp [xBeta_Distribution_Func, ha]
  · intro h1 h2 h3 h4 h5 u hu
    have hb : ¬ b < 1 := fun hb => h2 ⟨h5, hb⟩
    have ha : ¬ 1 < a := not_lt.mpr h5.le
    simp [xBeta_Distribution_Func, ha, hb, h3, h4, h5, hu]
  · intro h1 h2 h3 h4 h5 v hv
    rw [not_and] at h1 h2
    by_cases ha : 1 < a
    · have hb : ¬ 1 < b := h1 ha
      simp [xBeta_Distribution_Func, hb, h3, h4, h5, hv]
    · simp [xBeta_Distribution_Func, ha, h3, h4, h5, hv]

/-- Witness of C9: the closed form of the region `b = 1`, `a ≠ 1`, at
`x = 1/2`, `a = 3` on the exact platform. -/
theorem xBeta_Distribution_Func_regions_witness :
    xBeta_Distribution_Func (Platform.x86 Real.Gamma (fun z => Real.log (Real.Gamma z))
        Real.exp Real.log (fun x y => x ^ y)) 0 1 (1 / 2) 3 1
      = .ok ((1 / 2 : ℝ) ^ (3 : ℝ) / (3 * xBeta_Function (Platform.x86 Real.Gamma
          (fun z => Real.log (Real.Gamma z)) Real.exp Real.log (fun x y => x ^ y)) 3 1)) :=
  (xBeta_Distribution_Func_regions _ 0 0 (1 / 2) 3 1).2.2.2.2.1 rfl (by norm_num)

/-- C10: for `a > 0`, `b > 0`, a positive Gamma provider with
`lnGamma = log of Gamma`, and a log-space exponent not above `ln_LDBL_MAX`,
the direct ratio `Gamma(a) / (Gamma(a+b)/Gamma(b))` equals
`exp(lnGamma(a) + lnGamma(b) - lnGamma(a+b))`, and the value of
`xBeta_Function(a,b)` is the same for every value of
`Gamma_Function_Max_Arg()`, on whichever side of `a + b` it lies. -/
theorem xBeta_Function_paths_agree (P : Platform ℝ)
    (hexp : ∀ t, P.expl t = Real.exp t)
    (hpos : ∀ z, 0 < z → 0 < P.xGamma_Function z)
    (hln : ∀ z, 0 < z → P.xLn_Gamma_Function z = Real.log (P.xGamma_Function z))
    (a b : ℝ) (ha : 0 < a) (hb : 0 < b)
    (hfit : P.xLn_Gamma_Function a + P.xLn_Gamma_Function b
              - P.xLn_Gamma_Function (a + b) ≤ ln_LDBL_MAX) :
    P.xGamma_Function a / (P.xGamma_Function (a + b) / P.xGamma_Function b)
      = P.expl (P.xLn_Gamma_Function a + P.xLn_Gamma_Function b
                  - P.xLn_Gamma_Function (a + b)) ∧
    ∀ M M' : ℝ, xBeta_Function (P.withMaxArg M) a b = xBeta_Function (P.withMaxArg M') a b := by
  have key : P.xGamma_Function a / (P.xGamma_Function (a + b) / P.xGamma_Function b)
      = P.expl (P.xLn_Gamma_Function a + P.xLn_Gamma_Function b
                  - P.xLn_Gamma_Function (a + b)) := by
    rw [hexp, hln a ha, hln b hb, hln (a + b) (add_pos ha hb), Real.exp_sub, Real.exp_add,
      Real.exp_log (hpos a ha), Real.exp_log (hpos b hb),
      Real.exp_log (hpos (a + b) (add_pos ha hb)), div_div_eq_mul_div]
  have one : ∀ M : ℝ, xBeta_Function (P.withMaxArg M) a b
      = P.xGamma_Function a / (P.xGamma_Function (a + b) / P.xGamma_Function b) := by
    intro M
    by_cases h : a + b ≤ M
    · simp [xBeta_Function, Platform.withMaxArg, h]
    · simp only [xBeta_Function, Platform.withMaxArg, if_neg h, gt_iff_lt, if_neg (not_lt.mpr hfit)]
      exact key.symm
  exact ⟨key, fun M M' => by rw [one M, one M']⟩

/-- Witness of C10: `a = 2`, `b = 3` on the exact platform, once with
`Gamma_Function_Max_Arg() = 171` (direct ratio) and once with `4` (log space). -/
theorem xBeta_Function_paths_agree_witness :
    xBeta_Function ((Platform.x86 Real.Gamma (fun z => Real.log (Real.Gamma z))
        Real.exp Real.log (fun x y => x ^ y)).withMaxArg 171) 2 3
      = xBeta_Function ((Platform.x86 Real.Gamma (fun z => Real.log (Real.Gamma z))
        Real.exp Real.log (fun x y => x ^ y)).withMaxArg 4) 2 3 :=
  (xBeta_Function_paths_agree (Platform.x86 Real.Gamma (fun z => Real.log (Real.Gamma z))
      Real.exp Real.log (fun x y => x ^ y)) (fun _ => rfl)
    (fun _ hz => Real.Gamma_pos_of_pos hz) (fun _ _ => rfl) 2 3 (by norm_num) (by norm_num)
    (by
      show Real.log (Real.Gamma 2) + Real.log (Real.Gamma 3) - Real.log (Real.Gamma (2 + 3))
        ≤ ln_LDBL_MAX
      rw [Real.Gamma_two, Gamma_three, show (2 + 3 : ℝ) = 5 by norm_num, Gamma_five,
        Real.log_one]
      have h : Real.log 2 ≤ Real.log 24 :=
        Real.log_le_log (by norm_num) (by norm_num)
      have hc : (0 : ℝ) ≤ ln_LDBL_MAX := by
        unfold ln_LDBL_MAX
        norm_num
      linarith)).2 171 4

/-- C8: on a platform with exact `expl` and `logl`, `Gamma(2) = 1`,
`Gamma(4) = 6`, `Gamma_Function_Max_Arg() >= 4` and `0 <= 10*LDBL_EPSILON < 2/49`,
`Beta_Distribution_Func(0.5,2,2) = 0.5`: the call goes to
`Beta_Continued_Fraction(0.5,2,2)`, whose loop stops after three iterations
(not after two) with `f_less = f_greater`, and the returned value
`exp(a*ln x + b*ln(1-x) + ln(Ap1/Bp1)) / (a*Beta(a,b))` is `0.5`. -/
theorem Beta_Distribution_Func_half_two_two (P : Platform ℝ) (hL : P.ExactLibm)
    (hΓ2 : P.xGamma_Function 2 = 1) (hΓ4 : P.xGamma_Function 4 = 6)
    (hM : 4 ≤ P.Gamma_Function_Max_Arg) (h0 : 0 ≤ P.LDBL_EPSILON)
    (h1 : 10 * P.LDBL_EPSILON < 2 / 49) (n d : Nat) :
    Beta_Distribution_Func P (n + 3) (d + 1) (1 / 2) 2 2 = .ok (1 / 2) ∧
    xBeta_Distribution_Func P (n + 3) (d + 1) (1 / 2) 2 2
      = Beta_Continued_Fraction P (n + 3) (1 / 2) 2 2 ∧
    cfLoop P (1 / 2) 2 2 2 (cfInit 2) = .error .iterations ∧
    ∃ s : CFState ℝ, cfLoop P (1 / 2) 2 2 (n + 3) (cfInit 2) = .ok s ∧
      s.f_less = s.f_greater ∧
      P.expl (2 * P.logl (1 / 2) + 2 * P.logl (1 - 1 / 2) + P.logl (s.Ap1 / s.Bp1))
        / (2 * xBeta_Function P 2 2) = 1 / 2 := by
  have hcf := Beta_Continued_Fraction_half_two_two P hL hΓ2 hΓ4 hM h0 h1 n
  have hloop := cfLoop_half_two_two P h0 h1 n
  have hF : xBeta_Distribution_Func P (n + 3) (d + 1) (1 / 2) 2 2
      = Beta_Continued_Fraction P (n + 3) (1 / 2) 2 2 := by
    have ht : (1 / 2 : ℝ) ≤ (2 - 1) / (2 + 2 - 2) := by norm_num
    simp only [xBeta_Distribution_Func, ht, if_true]
    norm_num
  refine ⟨?_, hF, hloop.2, _, hloop.1, rfl, ?_⟩
  · have a1 : ¬ (1 / 2 : ℝ) ≤ 0 := by norm_num
    have a2 : ¬ (1 / 2 : ℝ) ≥ 1 := by norm_num
    simp only [Beta_Distribution_Func, if_neg a1, if_neg a2, hF, hcf]
  · have hx : (1 / 2 : ℝ) ≠ 0 := by norm_num
    simpa only [Beta_Continued_Fraction, if_neg hx, hloop.1, Except.ok.injEq] using hcf

/-- Witness of C8 on the exact platform, with the smallest budgets. -/
theorem Beta_Distribution_Func_half_two_two_witness :
    Beta_Distribution_Func (Platform.x86 Real.Gamma (fun z => Real.log (Real.Gamma z))
        Real.exp Real.log (fun x y => x ^ y)) 3 1 (1 / 2) 2 2 = .ok (1 / 2) :=
  (Beta_Distribution_Func_half_two_two _ ⟨fun _ => rfl, fun _ => rfl, fun _ _ => rfl⟩
    Real.Gamma_two Gamma_four (by norm_num [Platform.x86]) (by norm_num [Platform.x86])
    (by norm_num [Platform.x86]) 0 0).1

/-- C5 (the code at `x = 1/2`, `a = b = 2`, exact platform): here
`x <= (a-1)/(a+b-2)`, and `xIncomplete_Beta_Function` returns the value `1/2`
of `Beta_Continued_Fraction` itself, whereas `Beta(2,2)` times that value is
`1/12`. -/
theorem xIncomplete_Beta_Function_half_two_two :
    xIncomplete_Beta_Function (Platform.x86 Real.Gamma (fun z => Real.log (Real.Gamma z))
        Real.exp Real.log (fun x y => x ^ y)) 3 1 (1 / 2) 2 2 = .ok (1 / 2) ∧
    Beta_Continued_Fraction (Platform.x86 Real.Gamma (fun z => Real.log (Real.Gamma z))
        Real.exp Real.log (fun x y => x ^ y)) 3 (1 / 2) 2 2 = .ok (1 / 2) ∧
    xBeta_Function (Platform.x86 Real.Gamma (fun z => Real.log (Real.Gamma z))
        Real.exp Real.log (fun x y => x ^ y)) 2 2 * (1 / 2) = 1 / 12 ∧
    (1 / 2 : ℝ) ≤ (2 - 1) / (2 + 2 - 2) ∧ (1 / 2 : ℝ) ≠ 1 / 12 := by
  have hcf := Beta_Continued_Fraction_half_two_two
    (Platform.x86 Real.Gamma (fun z => Real.log (Real.Gamma z)) Real.exp Real.log
      (fun x y => x ^ y)) ⟨fun _ => rfl, fun _ => rfl, fun _ _ => rfl⟩
    Real.Gamma_two Gamma_four (by norm_num [Platform.x86]) (by norm_num [Platform.x86])
    (by norm_num [Platform.x86]) 0
  refine ⟨?_, hcf, ?_, by norm_num, by norm_num⟩
  · have ht : (1 / 2 : ℝ) ≤ (2 - 1) / (2 + 2 - 2) := by norm_num
    simp only [xIncomplete_Beta_Function, ht, if_true]
    norm_num
    exact hcf
  · have h22 : (2 : ℝ) + 2 = 4 := by norm_num
    simp only [xBeta_Function, Platform.x86, h22, Real.Gamma_two, Gamma_four]
    norm_num

/-- `Gamma(p)*Gamma(q) <= Gamma(p+q)` for `p, q > 1`, from the logarithmic
convexity of Gamma between `1` and `p + q - 1`. -/
theorem Gamma_mul_Gamma_le {p q : ℝ} (hp : 1 < p) (hq : 1 < q) :
    Real.Gamma p * Real.Gamma q ≤ Real.Gamma (p + q) := by
  have hs : 0 < p + q - 1 := by linarith
  have hd : 0 < p + q - 2 := by linarith
  have hl0 : 0 < (p - 1) / (p + q - 2) := div_pos (by linarith) hd
  have hm0 : 0 < (q - 1) / (p + q - 2) := div_pos (by linarith) hd
  have hlm : (p - 1) / (p + q - 2) + (q - 1) / (p + q - 2) = 1 := by
    field_simp; ring
  have hpe : (p - 1) / (p + q - 2) * (p + q - 1) + (q - 1) / (p + q - 2) * 1 = p := by
    field_simp; ring
  have hqe : (q - 1) / (p + q - 2) * (p + q - 1) + (p - 1) / (p + q - 2) * 1 = q := by
    field_simp; ring
  have hΓs := Real.Gamma_pos_of_pos hs
  have h1 := Real.Gamma_mul_add_mul_le_rpow_Gamma_mul_rpow_Gamma hs one_pos hl0 hm0 hlm
  have h2 := Real.Gamma_mul_add_mul_le_rpow_Gamma_mul_rpow_Gamma hs one_pos hm0 hl0
    (by rw [add_comm]; exact hlm)
  rw [hpe, Real.Gamma_one, Real.one_rpow, mul_one] at h1
  rw [hqe, Real.Gamma_one, Real.one_rpow, mul_one] at h2
  have h3 : Real.Gamma p * Real.Gamma q
      ≤ Real.Gamma (p + q - 1) ^ ((p - 1) / (p + q - 2))
        * Real.Gamma (p + q - 1) ^ ((q - 1) / (p + q - 2)) :=
    mul_le_mul h1 h2 (Real.Gamma_pos_of_pos (by linarith)).le (Real.rpow_nonneg hΓs.le _)
  rw [← Real.rpow_add hΓs, hlm, Real.rpow_one] at h3
  have h4 : Real.Gamma (p + q) = (p + q - 1) * Real.Gamma (p + q - 1) := by
    have := Real.Gamma_add_one hs.ne'
    rwa [sub_add_cancel] at this
  rw [h4]
  nlinarith

/-- The true Beta value is positive. -/
theorem Gamma_ratio_pos {p q : ℝ} (hp : 0 < p) (hq : 0 < q) :
    0 < Real.Gamma p * Real.Gamma q / Real.Gamma (p + q) :=
  div_pos (mul_pos (Real.Gamma_pos_of_pos hp) (Real.Gamma_pos_of_pos hq))
    (Real.Gamma_pos_of_pos (add_pos hp hq))

/-- With exact `expl` and an exact Gamma provider, `xBeta_Function` returns
the true Beta value, or `LDBL_MAX` when the true value is above
`exp(ln_LDBL_MAX)` and `a + b` is beyond `Gamma_Function_Max_Arg()`. -/
theorem xBeta_Function_exact_or_clamped (P : Platform ℝ) (hL : P.ExactLibm)
    (hG : P.ExactGamma) {p q : ℝ} (hp : 0 < p) (hq : 0 < q) :
    xBeta_Function P p q = Real.Gamma p * Real.Gamma q / Real.Gamma (p + q) ∨
    (xBeta_Function P p q = P.LDBL_MAX ∧
      ln_LDBL_MAX < Real.log (Real.Gamma p * Real.Gamma q / Real.Gamma (p + q))) := by
  have hpq := add_pos hp hq
  have gp := Real.Gamma_pos_of_pos hp
  have gq := Real.Gamma_pos_of_pos hq
  have gpq := Real.Gamma_pos_of_pos hpq
  have hlog : P.xLn_Gamma_Function p + P.xLn_Gamma_Function q - P.xLn_Gamma_Function (p + q)
      = Real.log (Real.Gamma p * Real.Gamma q / Real.Gamma (p + q)) := by
    rw [hG.lngamma_eq p hp, hG.lngamma_eq q hq, hG.lngamma_eq _ hpq,
      Real.log_div (mul_pos gp gq).ne' gpq.ne', Real.log_mul gp.ne' gq.ne']
  by_cases h : p + q ≤ P.Gamma_Function_Max_Arg
  · left
    simp only [xBeta_Function, if_pos h]
    rw [hG.gamma_eq p hp, hG.gamma_eq q hq, hG.gamma_eq _ hpq, div_div_eq_mul_div]
  · simp only [xBeta_Function, if_neg h, hlog, gt_iff_lt]
    by_cases hc : ln_LDBL_MAX < Real.log (Real.Gamma p * Real.Gamma q / Real.Gamma (p + q))
    · right
      exact ⟨by rw [if_pos hc], hc⟩
    · left
      rw [if_neg hc, hL.expl_eq, Real.exp_log (Gamma_ratio_pos hp hq)]

theorem ln_LDBL_MAX_nonneg : (0 : ℝ) ≤ ln_LDBL_MAX := by
  unfold ln_LDBL_MAX
  norm_num

/-- For `p, q > 1` the clamp of `xBeta_Function` is never taken. -/
theorem xBeta_Function_exact_of_one_lt (P : Platform ℝ) (hL : P.ExactLibm)
    (hG : P.ExactGamma) {p q : ℝ} (hp : 1 < p) (hq : 1 < q) :
    xBeta_Function P p q = Real.Gamma p * Real.Gamma q / Real.Gamma (p + q) := by
  have hp0 : 0 < p := by linarith
  have hq0 : 0 < q := by linarith
  rcases xBeta_Function_exact_or_clamped P hL hG hp0 hq0 with h | ⟨_, h⟩
  · exact h
  · exfalso
    have hle : Real.Gamma p * Real.Gamma q / Real.Gamma (p + q) ≤ 1 :=
      (div_le_one (Real.Gamma_pos_of_pos (add_pos hp0 hq0))).mpr (Gamma_mul_Gamma_le hp hq)
    have : Real.log (Real.Gamma p * Real.Gamma q / Real.Gamma (p + q)) ≤ 0 :=
      Real.log_nonpos (Gamma_ratio_pos hp0 hq0).le hle
    linarith [ln_LDBL_MAX_nonneg]

theorem Gamma_ratio_succ_left {a b : ℝ} (ha : 0 < a) (hb : 0 < b) :
    Real.Gamma (a + 1) * Real.Gamma b / Real.Gamma (a + 1 + b)
      = a / (a + b) * (Real.Gamma a * Real.Gamma b / Real.Gamma (a + b)) := by
  have hab := add_pos ha hb
  rw [show a + 1 + b = (a + b) + 1 by ring, Real.Gamma_add_one ha.ne',
    Real.Gamma_add_one hab.ne']
  have := (Real.Gamma_pos_of_pos hab).ne'
  field_simp
  ring

theorem Gamma_ratio_succ_right {a b : ℝ} (ha : 0 < a) (hb : 0 < b) :
    Real.Gamma a * Real.Gamma (b + 1) / Real.Gamma (a + (b + 1))
      = b / (a + b) * (Real.Gamma a * Real.Gamma b / Real.Gamma (a + b)) := by
  have hab := add_pos ha hb
  rw [show a + (b + 1) = (a + b) + 1 by ring, Real.Gamma_add_one hb.ne',
    Real.Gamma_add_one hab.ne']
  have := (Real.Gamma_pos_of_pos hab).ne'
  field_simp
  ring

/-- At `x = 1` the raw integral is the true Beta value when no reduction is
needed: `a, b > 1`, or `a = 1`, or `b = 1`. -/
theorem raw_integral_at_one_level1 (P : Platform ℝ) (hL : P.ExactLibm)
    (hG : P.ExactGamma) (n d : Nat) {a b : ℝ} (ha : 0 < a) (hb : 0 < b)
    (h : (1 < a ∧ 1 < b) ∨ a = 1 ∨ b = 1) :
    xIncomplete_Beta_Function P n (d + 1) 1 a b
      = .ok (Real.Gamma a * Real.Gamma b / Real.Gamma (a + b)) := by
  rcases h with ⟨h1, h2⟩ | h | h
  · have ht : ¬ (1 : ℝ) ≤ (a - 1) / (a + b - 2) := by
      rw [not_le, div_lt_one (by linarith)]
      linarith
    simp only [xIncomplete_Beta_Function, gt_iff_lt, h1, h2, and_self, if_true, if_neg ht,
      sub_self, Beta_Continued_Fraction, sub_zero, xBeta_Function_exact_of_one_lt P hL hG h1 h2]
  · subst h
    have h1 : ¬ ((1 : ℝ) > 1 ∧ b > 1) := by simp
    have h2 : ¬ ((1 : ℝ) < 1 ∧ b < 1) := by simp
    simp only [xIncomplete_Beta_Function, if_neg h1, if_neg h2, if_true, hL.powl_eq, sub_self,
      Real.zero_rpow hb.ne', sub_zero, Real.Gamma_one, one_mul]
    rw [add_comm 1 b, Real.Gamma_add_one hb.ne']
    have := (Real.Gamma_pos_of_pos hb).ne'
    congr 1
    field_simp
  · subst h
    have h1 : ¬ (a > 1 ∧ (1 : ℝ) > 1) := by simp
    have h2 : ¬ (a < 1 ∧ (1 : ℝ) < 1) := by simp
    by_cases h3 : a = 1
    · subst h3
      simp only [xIncomplete_Beta_Function, if_neg h1, if_neg h2, if_true, hL.powl_eq, sub_self,
        Real.zero_rpow one_ne_zero, sub_zero, Real.Gamma_one, one_mul, one_add_one_eq_two,
        Real.Gamma_two]
    · simp only [xIncomplete_Beta_Function, if_neg h1, if_neg h2, if_neg h3, if_true,
        hL.powl_eq, Real.one_rpow, Real.Gamma_one, mul_one]
      rw [Real.Gamma_add_one ha.ne']
      have := (Real.Gamma_pos_of_pos ha).ne'
      congr 1
      field_simp


/-- At `x = 1` the raw integral is the true Beta value for all `a, b > 0`,
through every region, once three nested activations are allowed. -/
theorem raw_integral_at_one (P : Platform ℝ) (hL : P.ExactLibm)
    (hG : P.ExactGamma) (n d : Nat) {a b : ℝ} (ha : 0 < a) (hb : 0 < b) :
    xIncomplete_Beta_Function P n (d + 3) 1 a b
      = .ok (Real.Gamma a * Real.Gamma b / Real.Gamma (a + b)) := by
  have hab := add_pos ha hb
  have gab := (Real.Gamma_pos_of_pos hab).ne'
  -- one parameter below 1, the other above
  have left : ∀ (d : Nat) {a b : ℝ}, 0 < a → 0 < b → a < 1 → 1 < b →
      xIncomplete_Beta_Function P n (d + 2) 1 a b
        = .ok (Real.Gamma a * Real.Gamma b / Real.Gamma (a + b)) := by
    intro d a b ha hb h1 h2
    have e1 : ¬ (a > 1 ∧ b > 1) := fun h => absurd h.1 (not_lt.mpr h1.le)
    have e2 : ¬ (a < 1 ∧ b < 1) := fun h => absurd h.2 (not_lt.mpr h2.le)
    rw [xIncomplete_Beta_Function]
    simp only [if_neg e1, if_neg e2, if_neg h1.ne, if_neg h2.ne', if_pos h1,
      raw_integral_at_one_level1 P hL hG n d (add_pos ha one_pos) hb
        (Or.inl ⟨by linarith, h2⟩), hL.powl_eq, sub_self, Real.zero_rpow hb.ne', mul_zero,
      add_zero, Gamma_ratio_succ_left ha hb]
    have := (add_pos ha hb).ne'
    congr 1
    field_simp
    ring
  have right : ∀ (d : Nat) {a b : ℝ}, 0 < a → 0 < b → 1 < a → b < 1 →
      xIncomplete_Beta_Function P n (d + 2) 1 a b
        = .ok (Real.Gamma a * Real.Gamma b / Real.Gamma (a + b)) := by
    intro d a b ha hb h1 h2
    have e1 : ¬ (a > 1 ∧ b > 1) := fun h => absurd h.2 (not_lt.mpr h2.le)
    have e2 : ¬ (a < 1 ∧ b < 1) := fun h => absurd h.1 (not_lt.mpr h1.le)
    rw [xIncomplete_Beta_Function]
    simp only [if_neg e1, if_neg e2, if_neg h1.ne', if_neg h2.ne, if_neg (not_lt.mpr h1.le),
      raw_integral_at_one_level1 P hL hG n d ha (add_pos hb one_pos)
        (Or.inl ⟨h1, by linarith⟩), hL.powl_eq, sub_self, Real.zero_rpow hb.ne', mul_zero,
      sub_zero, Gamma_ratio_succ_right ha hb]
    have := (add_pos ha hb).ne'
    congr 1
    field_simp
    ring
  rcases lt_trichotomy a 1 with h1 | h1 | h1
  · rcases lt_trichotomy b 1 with h2 | h2 | h2
    · have e1 : ¬ (a > 1 ∧ b > 1) := fun h => absurd h.1 (not_lt.mpr h1.le)
      rw [xIncomplete_Beta_Function]
      simp only [if_neg e1, h1, h2, and_self, if_true,
        right d (add_pos ha one_pos) hb (by linarith) h2,
        left d ha (add_pos hb one_pos) h1 (by linarith),
        show a + 1 + b = a + (b + 1) by ring]
      rw [← show a + 1 + b = a + (b + 1) by ring, Gamma_ratio_succ_left ha hb,
        show a + 1 + b = a + (b + 1) by ring, Gamma_ratio_succ_right ha hb]
      congr 1
      field_simp
      ring
    · exact raw_integral_at_one_level1 P hL hG n (d + 2) ha hb (Or.inr (Or.inr h2))
    · exact left (d + 1) ha hb h1 h2
  · exact raw_integral_at_one_level1 P hL hG n (d + 2) ha hb (Or.inr (Or.inl h1))
  · rcases lt_trichotomy b 1 with h2 | h2 | h2
    · exact right (d + 1) ha hb h1 h2
    · exact raw_integral_at_one_level1 P hL hG n (d + 2) ha hb (Or.inr (Or.inr h2))
    · exact raw_integral_at_one_level1 P hL hG n (d + 2) ha hb (Or.inl ⟨h1, h2⟩)

/-- C4: on a platform with exact `expl`, `logl`, `powl`, the exact Gamma
function (so `Gamma(z+1) = z*Gamma(z)`) with `lnGamma = log Gamma`, and limits
with `0 < DBL_MAX <= LDBL_MAX` and `log DBL_MAX <= ln_LDBL_MAX`: for every
`a > 0`, `b > 0`, `Incomplete_Beta_Function(1,a,b)` returns, and its value is
`Beta_Function(a,b)`, in every region of `xIncomplete_Beta_Function` (no loop
iteration is needed, three nested activations suffice). -/
theorem Incomplete_Beta_Function_one (P : Platform ℝ) (hL : P.ExactLibm)
    (hG : P.ExactGamma) (hD0 : 0 < P.DBL_MAX) (hD : P.DBL_MAX ≤ P.LDBL_MAX)
    (hDl : Real.log P.DBL_MAX ≤ ln_LDBL_MAX) (n d : Nat) (a b : ℝ) (ha : 0 < a)
    (hb : 0 < b) :
    Incomplete_Beta_Function P n (d + 3) 1 a b = .ok (Beta_Function P a b) := by
  simp only [Incomplete_Beta_Function, raw_integral_at_one P hL hG n d ha hb,
    Beta_Function]
  congr 1
  rcases xBeta_Function_exact_or_clamped P hL hG ha hb with h | ⟨h, hc⟩
  · rw [h]
    rcases lt_trichotomy (Real.Gamma a * Real.Gamma b / Real.Gamma (a + b)) P.DBL_MAX
      with c | c | c
    · rw [if_neg (not_lt.mpr c.le), if_pos c]
    · rw [if_neg (not_lt.mpr c.le), if_neg (not_lt.mpr c.ge), c]
    · rw [if_pos c, if_neg (not_lt.mpr c.le)]
  · have hbig : P.DBL_MAX < Real.Gamma a * Real.Gamma b / Real.Gamma (a + b) := by
      rw [← Real.log_lt_log_iff hD0 (Gamma_ratio_pos ha hb)]
      linarith
    rw [h, if_pos hbig, if_neg (not_lt.mpr hD)]

theorem log_two_pow_1024_le : Real.log ((2 : ℝ) ^ 1024) ≤ ln_LDBL_MAX := by
  rw [Real.log_pow]
  have := Real.log_two_lt_d9
  unfold ln_LDBL_MAX
  norm_num
  linarith

/-- Witness of C4 at `a = b = 1/2` (both shape parameters below `1`) on the
exact platform, with no loop iteration allowed. -/
theorem Incomplete_Beta_Function_one_witness :
    Incomplete_Beta_Function (Platform.x86 Real.Gamma (fun z => Real.log (Real.Gamma z))
        Real.exp Real.log (fun x y => x ^ y)) 0 3 1 (1 / 2) (1 / 2)
      = .ok (Beta_Function (Platform.x86 Real.Gamma (fun z => Real.log (Real.Gamma z))
        Real.exp Real.log (fun x y => x ^ y)) (1 / 2) (1 / 2)) :=
  Incomplete_Beta_Function_one _ ⟨fun _ => rfl, fun _ => rfl, fun _ _ => rfl⟩
    ⟨fun _ _ => rfl, fun _ _ => rfl⟩ (by norm_num [Platform.x86])
    (pow_le_pow_right₀ (by norm_num) (by norm_num)) log_two_pow_1024_le 0 0 (1 / 2) (1 / 2)
    (by norm_num) (by norm_num)


/-- C11: `xLn_Beta_Function(a,b)` returns `0` for `a = b = 1`, the log of the
ratio `Gamma(a)/(Gamma(a+b)/Gamma(b))` otherwise, when
`a + b <= Gamma_Function_Max_Arg()`, and `lnGamma(a)+lnGamma(b)-lnGamma(a+b)`
when `a + b > Gamma_Function_Max_Arg()` (also at `a = b = 1`: the special case
sits inside the first branch).  On an exact platform, for `a > 0`, `b > 0`,
this is always the natural log of the unclamped Beta value
`Gamma(a)Gamma(b)/Gamma(a+b)`, and the special case agrees with the general
formula (the log of the ratio at `(1,1)` is `0`). -/
theorem xLn_Beta_Function_eq_log (P : Platform ℝ) (hL : P.ExactLibm) (hG : P.ExactGamma)
    (a b : ℝ) (ha : 0 < a) (hb : 0 < b) :
    (a + b ≤ P.Gamma_Function_Max_Arg → a = 1 → b = 1 → xLn_Beta_Function P a b = 0) ∧
    (a + b ≤ P.Gamma_Function_Max_Arg → ¬ (a = 1 ∧ b = 1) →
      xLn_Beta_Function P a b
        = P.logl (P.xGamma_Function a / (P.xGamma_Function (a + b) / P.xGamma_Function b))) ∧
    (¬ a + b ≤ P.Gamma_Function_Max_Arg →
      xLn_Beta_Function P a b
        = P.xLn_Gamma_Function a + P.xLn_Gamma_Function b - P.xLn_Gamma_Function (a + b)) ∧
    xLn_Beta_Function P a b = Real.log (Real.Gamma a * Real.Gamma b / Real.Gamma (a + b)) ∧
    Ln_Beta_Function P a b = Real.log (Real.Gamma a * Real.Gamma b / Real.Gamma (a + b)) ∧
    P.logl (P.xGamma_Function 1 / (P.xGamma_Function (1 + 1) / P.xGamma_Function 1)) = 0 := by
  have hab := add_pos ha hb
  have gp := Real.Gamma_pos_of_pos ha
  have gq := Real.Gamma_pos_of_pos hb
  have gpq := Real.Gamma_pos_of_pos hab
  have c1 : a + b ≤ P.Gamma_Function_Max_Arg → a = 1 → b = 1 → xLn_Beta_Function P a b = 0 := by
    intro h h1 h2
    subst h1 h2
    simp only [xLn_Beta_Function, if_pos h, and_self, if_true]
  have c2 : a + b ≤ P.Gamma_Function_Max_Arg → ¬ (a = 1 ∧ b = 1) →
      xLn_Beta_Function P a b
        = P.logl (P.xGamma_Function a / (P.xGamma_Function (a + b) / P.xGamma_Function b)) := by
    intro h h1
    simp only [xLn_Beta_Function, if_pos h, if_neg h1]
  have c3 : ¬ a + b ≤ P.Gamma_Function_Max_Arg →
      xLn_Beta_Function P a b
        = P.xLn_Gamma_Function a + P.xLn_Gamma_Function b - P.xLn_Gamma_Function (a + b) := by
    intro h
    simp only [xLn_Beta_Function, if_neg h]
  have one : P.logl (P.xGamma_Function 1 / (P.xGamma_Function (1 + 1) / P.xGamma_Function 1))
      = 0 := by
    rw [hL.logl_eq, hG.gamma_eq 1 one_pos, hG.gamma_eq (1 + 1) (by norm_num),
      one_add_one_eq_two, Real.Gamma_one, Real.Gamma_two]
    norm_num
  have main : xLn_Beta_Function P a b
      = Real.log (Real.Gamma a * Real.Gamma b / Real.Gamma (a + b)) := by
    by_cases h : a + b ≤ P.Gamma_Function_Max_Arg
    · by_cases h1 : a = 1 ∧ b = 1
      · rw [c1 h h1.1 h1.2, h1.1, h1.2, one_add_one_eq_two, Real.Gamma_one, Real.Gamma_two]
        norm_num
      · rw [c2 h h1, hL.logl_eq, hG.gamma_eq a ha, hG.gamma_eq b hb, hG.gamma_eq _ hab,
          div_div_eq_mul_div]
    · rw [c3 h, hG.lngamma_eq a ha, hG.lngamma_eq b hb, hG.lngamma_eq _ hab,
        Real.log_div (mul_pos gp gq).ne' gpq.ne', Real.log_mul gp.ne' gq.ne']
  exact ⟨c1, c2, c3, main, main, one⟩

/-- Witness of C11 on the exact platform: `a = b = 1` (special case) and
`a = 100`, `b = 72` (beyond `Gamma_Function_Max_Arg() = 171`). -/
theorem xLn_Beta_Function_eq_log_witness :
    xLn_Beta_Function (Platform.x86 Real.Gamma (fun z => Real.log (Real.Gamma z))
        Real.exp Real.log (fun x y => x ^ y)) 1 1 = 0 ∧
    xLn_Beta_Function (Platform.x86 Real.Gamma (fun z => Real.log (Real.Gamma z))
        Real.exp Real.log (fun x y => x ^ y)) 100 72
      = Real.log (Real.Gamma 100 * Real.Gamma 72 / Real.Gamma (100 + 72)) :=
  ⟨(xLn_Beta_Function_eq_log _ ⟨fun _ => rfl, fun _ => rfl, fun _ _ => rfl⟩
      ⟨fun _ _ => rfl, fun _ _ => rfl⟩ 1 1 one_pos one_pos).1
      (by norm_num [Platform.x86]) rfl rfl,
   (xLn_Beta_Function_eq_log _ ⟨fun _ => rfl, fun _ => rfl, fun _ _ => rfl⟩
      ⟨fun _ _ => rfl, fun _ _ => rfl⟩ 100 72 (by norm_num) (by norm_num)).2.2.2.1⟩

/-- The selected branch is the one whose region holds. -/
theorem selectedBranch_eq_iff {α : Type} [LinearOrderedField α] (a b : α) (r : Region) :
    selectedBranch a b = r ↔ r.holds a b := by
  unfold selectedBranch
  rcases lt_trichotomy a 1 with ha | ha | ha <;> rcases lt_trichotomy b 1 with hb | hb | hb <;>
    cases r <;>
    first
      | subst ha; subst hb; simp [Region.holds]
      | subst ha; simp [Region.holds, hb, not_lt.mpr hb.le]
      | subst hb; simp [Region.holds, ha, not_lt.mpr ha.le, ha.ne, ha.ne']
      | simp [Region.holds, ha, hb, not_lt.mpr ha.le, not_lt.mpr hb.le, ha.ne, hb.ne, ha.ne',
          hb.ne']

/-- The conditionals of `xBeta_Distribution_Func` are the tagged dispatch. -/
theorem xBeta_Distribution_Func_eq_cdfBranch {α : Type} [LinearOrderedField α]
    (P : Platform α) (n d : Nat) (x a b : α) :
    xBeta_Distribution_Func P n (d + 1) x a b
      = cdfBranch P n (xBeta_Distribution_Func P n d) x a b (selectedBranch a b) := by
  rw [xBeta_Distribution_Func]
  unfold selectedBranch
  split_ifs <;> simp [cdfBranch, *]

/-- The conditionals of `xIncomplete_Beta_Function` are the tagged dispatch. -/
theorem xIncomplete_Beta_Function_eq_rawBranch {α : Type} [LinearOrderedField α]
    (P : Platform α) (n d : Nat) (x a b : α) :
    xIncomplete_Beta_Function P n (d + 1) x a b
      = rawBranch P n (xIncomplete_Beta_Function P n d) x a b (selectedBranch a b) := by
  rw [xIncomplete_Beta_Function]
  unfold selectedBranch
  split_ifs <;> simp [rawBranch, *]

/-- C17: the sequential conditionals of `xBeta_Distribution_Func` and
`xIncomplete_Beta_Function` are a mutually exclusive, exhaustive dispatch:
for all `a`, `b` exactly one of the regions `a>1 ∧ b>1`, `a<1 ∧ b<1`, `a=1`,
`b=1 ∧ a≠1`, `a<1 ∧ b>1`, `a>1 ∧ b<1` holds, the branch executed is the one of
that region, both functions compute that region's formula, and the last,
unconditional branch is reached only when `b < 1` and `a > 1`. -/
theorem region_dispatch_exclusive_exhaustive {α : Type} [LinearOrderedField α]
    (P : Platform α) (n d : Nat) (x a b : α) :
    (∃! r : Region, r.holds a b) ∧
    (∀ r : Region, selectedBranch a b = r ↔ r.holds a b) ∧
    xBeta_Distribution_Func P n (d + 1) x a b
      = cdfBranch P n (xBeta_Distribution_Func P n d) x a b (selectedBranch a b) ∧
    xIncomplete_Beta_Function P n (d + 1) x a b
      = rawBranch P n (xIncomplete_Beta_Function P n d) x a b (selectedBranch a b) ∧
    (selectedBranch a b = .bBelow → b < 1 ∧ a > 1) := by
  refine ⟨⟨selectedBranch a b, (selectedBranch_eq_iff a b _).mp rfl, fun r hr => ?_⟩,
    selectedBranch_eq_iff a b, xBeta_Distribution_Func_eq_cdfBranch P n d x a b,
    xIncomplete_Beta_Function_eq_rawBranch P n d x a b, fun h => ?_⟩
  · exact ((selectedBranch_eq_iff a b r).mpr hr).symm
  · have := (selectedBranch_eq_iff a b _).mp h
    exact ⟨this.2, this.1⟩

/-- Witness of C17 at `a = 3`, `b = 1/2`: the last branch is the one executed. -/
theorem region_dispatch_exclusive_exhaustive_witness :
    selectedBranch (3 : ℝ) (1 / 2) = .bBelow ∧ (1 / 2 : ℝ) < 1 ∧ (3 : ℝ) > 1 :=
  have h : selectedBranch (3 : ℝ) (1 / 2) = .bBelow :=
    ((region_dispatch_exclusive_exhaustive
      (Platform.x86 Real.Gamma (fun z => Real.log (Real.Gamma z)) Real.exp Real.log
        (fun x y => x ^ y)) 0 0 (1 / 2) 3 (1 / 2)).2.1 .bBelow).mpr
      ⟨by norm_num, by norm_num⟩
  ⟨h, (region_dispatch_exclusive_exhaustive
      (Platform.x86 Real.Gamma (fun z => Real.log (Real.Gamma z)) Real.exp Real.log
        (fun x y => x ^ y)) 0 0 (1 / 2) 3 (1 / 2)).2.2.2.2 h⟩


section Rescaling

variable {α : Type} [LinearOrderedField α]

/-- One pass of the loop body keeps the two runs proportional: if the state
of the source loop is `c` times the state of the loop without rescaling, with
`c ≠ 0`, then so it is after the pass, for some new non-zero factor. -/
theorem cfBody_scaled (x a b : α) {c : α} (hc : c ≠ 0) {s t : CFState α}
    (h : CFState.Scaled c s t) :
    ∃ c', c' ≠ 0 ∧ CFState.Scaled c' (cfBody x a b s) (cfBodyPlain x a b t) := by
  obtain ⟨sAm1, sA0, sBm1, sB0, se, sAp1, sBp1, sfl, sfg, saj, sam, sj, sm, sk⟩ := s
  obtain ⟨tAm1, tA0, tBm1, tB0, te, tAp1, tBp1, tfl, tfg, taj, tam, tj, tm, tk⟩ := t
  simp only [CFState.Scaled] at h
  obtain ⟨rfl, rfl, rfl, rfl, rfl, rfl, rfl, rfl, rfl, rfl, rfl, rfl, rfl, rfl⟩ := h
  unfold CFState.Scaled cfBody cfBodyPlain
  dsimp only
  generalize (-(a + (sm : α))) * (a + (sm : α) + b) * x / ((saj + 1) * saj) = e1
  generalize ((sm + 1 : ℕ) : α) * (b - ((sm + 1 : ℕ) : α)) * x
    / ((a + ((sj + 2 : ℕ) : α) - 1) * (a + ((sj + 2 : ℕ) : α))) = e2
  have r1 : c * tAp1 + e1 * (c * tA0) = c * (tAp1 + e1 * tA0) := by ring
  have r2 : c * tBp1 + e1 * (c * tB0) = c * (tBp1 + e1 * tB0) := by ring
  rw [r1, r2]
  generalize tAp1 + e1 * tA0 = A1
  generalize tBp1 + e1 * tB0 = B1
  have q1 : c * A1 / (c * B1) = A1 / B1 := mul_div_mul_left _ _ hc
  rw [q1]
  by_cases hB : |c * B1| > 1
  · have hne : c * B1 ≠ 0 := by
      intro h0
      rw [h0, abs_zero] at hB
      exact absurd hB (by norm_num)
    have hB1 : B1 ≠ 0 := fun h0 => hne (by rw [h0, mul_zero])
    refine ⟨c / (c * B1), div_ne_zero hc hne, ?_⟩
    have p1 : c * tAp1 / (c * B1) = c / (c * B1) * tAp1 := by ring
    have p2 : A1 / B1 = c / (c * B1) * A1 := by
      field_simp
      ring
    have p3 : c * tBp1 / (c * B1) = c / (c * B1) * tBp1 := by ring
    have p4 : (1 : α) = c / (c * B1) * B1 := by field_simp
    have p5 : A1 / B1 + e2 * (c * tAp1 / (c * B1)) = c / (c * B1) * (A1 + e2 * tAp1) := by
      field_simp
      ring
    have p6 : 1 + e2 * (c * tBp1 / (c * B1)) = c / (c * B1) * (B1 + e2 * tBp1) := by
      field_simp
      ring
    have q2 : c / (c * B1) * (A1 + e2 * tAp1) / (c / (c * B1) * (B1 + e2 * tBp1))
        = (A1 + e2 * tAp1) / (B1 + e2 * tBp1) := mul_div_mul_left _ _ (div_ne_zero hc hne)
    simp only [if_pos hB, p5, p6, q2, true_and, and_true, and_self]
    exact ⟨p1, p2, p3, p4⟩
  · refine ⟨c, hc, ?_⟩
    have p5 : c * A1 + e2 * (c * tAp1) = c * (A1 + e2 * tAp1) := by ring
    have p6 : c * B1 + e2 * (c * tBp1) = c * (B1 + e2 * tBp1) := by ring
    have q2 : c * (A1 + e2 * tAp1) / (c * (B1 + e2 * tBp1))
        = (A1 + e2 * tAp1) / (B1 + e2 * tBp1) := mul_div_mul_left _ _ hc
    simp only [if_neg hB, p5, p6, q2, and_self]

/-- The two runs stay proportional for any number of passes. -/
theorem iterate_cfBody_scaled (x a b : α) (n : Nat) :
    ∃ c : α, c ≠ 0 ∧
      CFState.Scaled c ((cfBody x a b)^[n] (cfInit a)) ((cfBodyPlain x a b)^[n] (cfInit a)) := by
  induction n with
  | zero =>
    refine ⟨1, one_ne_zero, ?_⟩
    simp [CFState.Scaled]
  | succ n ih =>
    obtain ⟨c, hc, h⟩ := ih
    rw [Function.iterate_succ_apply', Function.iterate_succ_apply']
    exact cfBody_scaled x a b hc h

/-- What the loop returns is the state after some number of passes, not
more than the budget. -/
theorem cfLoop_eq_iterate (P : Platform α) (x a b : α) :
    ∀ (n : Nat) (s r : CFState α), cfLoop P x a b n s = .ok r →
      ∃ m, m ≤ n ∧ r = (cfBody x a b)^[m] s := by
  intro n
  induction n with
  | zero =>
    intro s r h
    by_cases hc : cfCond P s
    · simp [cfLoop, hc] at h
    · simp only [cfLoop, if_neg hc, Except.ok.injEq] at h
      exact ⟨0, le_refl _, h.symm⟩
  | succ n ih =>
    intro s r h
    by_cases hc : cfCond P s
    · simp only [cfLoop, if_pos hc] at h
      obtain ⟨m, hm, hr⟩ := ih _ _ h
      exact ⟨m + 1, Nat.succ_le_succ hm, by rw [Function.iterate_succ_apply]; exact hr⟩
    · simp only [cfLoop, if_neg hc, Except.ok.injEq] at h
      exact ⟨0, Nat.zero_le _, h.symm⟩

end Rescaling

/-- C16: the rescaling step of `Beta_Continued_Fraction` does not change the
approximants.  After any number `n` of passes from the initial state, the
loop body of the source and the body without the `fabsl(Bp1) > 1` branch
have the same `f_less`, the same `f_greater` and the same `Ap1/Bp1` (hence
the same loop test), because the running terms of the first are those of the
second multiplied by one non-zero factor; so whatever the loop returns has
the `Ap1/Bp1` of some number of passes without rescaling.  (Division is
total in the model, so the proviso that no denominator is zero is not
needed.) -/
theorem rescaling_preserves_approximants {α : Type} [LinearOrderedField α]
    (P : Platform α) (x a b : α) (n : Nat) :
    ((cfBody x a b)^[n] (cfInit a)).f_less = ((cfBodyPlain x a b)^[n] (cfInit a)).f_less ∧
    ((cfBody x a b)^[n] (cfInit a)).f_greater
      = ((cfBodyPlain x a b)^[n] (cfInit a)).f_greater ∧
    ((cfBody x a b)^[n] (cfInit a)).Ap1 / ((cfBody x a b)^[n] (cfInit a)).Bp1
      = ((cfBodyPlain x a b)^[n] (cfInit a)).Ap1 / ((cfBodyPlain x a b)^[n] (cfInit a)).Bp1 ∧
    (cfCond P ((cfBody x a b)^[n] (cfInit a)) ↔ cfCond P ((cfBodyPlain x a b)^[n] (cfInit a))) ∧
    (∃ c : α, c ≠ 0 ∧
      CFState.Scaled c ((cfBody x a b)^[n] (cfInit a)) ((cfBodyPlain x a b)^[n] (cfInit a))) ∧
    (∀ r : CFState α, cfLoop P x a b n (cfInit a) = .ok r →
      ∃ m, m ≤ n ∧
        r.Ap1 / r.Bp1 = ((cfBodyPlain x a b)^[m] (cfInit a)).Ap1
          / ((cfBodyPlain x a b)^[m] (cfInit a)).Bp1) := by
  have key : ∀ m : Nat,
      ((cfBody x a b)^[m] (cfInit a)).f_less = ((cfBodyPlain x a b)^[m] (cfInit a)).f_less ∧
      ((cfBody x a b)^[m] (cfInit a)).f_greater
        = ((cfBodyPlain x a b)^[m] (cfInit a)).f_greater ∧
      ((cfBody x a b)^[m] (cfInit a)).Ap1 / ((cfBody x a b)^[m] (cfInit a)).Bp1
        = ((cfBodyPlain x a b)^[m] (cfInit a)).Ap1
          / ((cfBodyPlain x a b)^[m] (cfInit a)).Bp1 := by
    intro m
    obtain ⟨c, hc, h⟩ := iterate_cfBody_scaled x a b m
    obtain ⟨-, -, -, -, -, h6, h7, h8, h9, -⟩ := h
    exact ⟨h8, h9, by rw [h6, h7, mul_div_mul_left _ _ hc]⟩
  obtain ⟨k1, k2, k3⟩ := key n
  refine ⟨k1, k2, k3, ?_, iterate_cfBody_scaled x a b n, ?_⟩
  · simp only [cfCond, k1, k2]
  · intro r hr
    obtain ⟨m, hm, rfl⟩ := cfLoop_eq_iterate P x a b n _ _ hr
    exact ⟨m, hm, (key m).2.2⟩

/-- Witness of C16: the loop at `x = 1/2`, `a = b = 2` returns after three
passes with `Ap1/Bp1 = (11/24)/(11/64)`. -/
theorem rescaling_preserves_approximants_witness :
    ∃ m, m ≤ 3 ∧
      (11 / 24 : ℝ) / (11 / 64)
        = ((cfBodyPlain (1 / 2 : ℝ) 2 2)^[m] (cfInit 2)).Ap1
          / ((cfBodyPlain (1 / 2 : ℝ) 2 2)^[m] (cfInit 2)).Bp1 :=
  (rescaling_preserves_approximants
    (Platform.x86 Real.Gamma (fun z => Real.log (Real.Gamma z)) Real.exp Real.log
      (fun x y => x ^ y)) (1 / 2) 2 2 3).2.2.2.2.2 _
    (cfLoop_half_two_two _ (by norm_num [Platform.x86]) (by norm_num [Platform.x86]) 0).1


section Termination

variable {α : Type} [LinearOrderedField α]

/-- The loop can only end without a state for lack of iterations. -/
theorem cfLoop_fault (P : Platform α) (x a b : α) :
    ∀ (n : Nat) (s : CFState α) (f : Fault), cfLoop P x a b n s = .error f → f = .iterations := by
  intro n
  induction n with
  | zero =>
    intro s f h
    by_cases hc : cfCond P s
    · simp only [cfLoop, if_pos hc, Except.error.injEq] at h
      exact h.symm
    · simp [cfLoop, hc] at h
  | succ n ih =>
    intro s f h
    by_cases hc : cfCond P s
    · simp only [cfLoop, if_pos hc] at h
      exact ih _ _ h
    · simp [cfLoop, hc] at h

/-- The continued fraction can only fail for lack of iterations. -/
theorem Beta_Continued_Fraction_fault (P : Platform α) (n : Nat) (x a b : α) :
    FaultsIn (fun f => f = .iterations) (Beta_Continued_Fraction P n x a b) := by
  intro f h
  unfold Beta_Continued_Fraction at h
  by_cases hx : x = 0
  · simp [hx] at h
  · rw [if_neg hx] at h
    cases hl : cfLoop P x a b n (cfInit a) with
    | error g =>
      rw [hl] at h
      simp only [Except.error.injEq] at h
      rw [← h]
      exact cfLoop_fault P x a b n _ _ hl
    | ok s =>
      rw [hl] at h
      simp at h

/-- A result without faults at all is a value. -/
theorem exists_ok_of_faultsIn_false {β : Type} {r : Except Fault β}
    (h : FaultsIn (fun _ => False) r) : ∃ v, r = .ok v := by
  cases r with
  | error f => exact absurd (h f rfl) id
  | ok v => exact ⟨v, rfl⟩

/-- Faults of the dispatch come from the continued fraction only, as soon as
the depth budget exceeds `i + j`, where `i` and `j` are numbers of steps of
size `1` that bring `a` and `b` to `1` or above: each nested call adds `1` to
a parameter that is below `1` and uses up one step. -/
theorem dispatch_faults (P : Platform α) (n : Nat) (x : α) (S : Fault → Prop)
    (hcf : ∀ p q : α, 1 < p → 1 < q →
      (x ≤ (p - 1) / (p + q - 2) → FaultsIn S (Beta_Continued_Fraction P n x p q)) ∧
      (¬ x ≤ (p - 1) / (p + q - 2) → FaultsIn S (Beta_Continued_Fraction P n (1 - x) q p))) :
    ∀ (k i j : Nat) (a b : α), 1 - a ≤ i → 1 - b ≤ j → i + j < k →
      FaultsIn S (xBeta_Distribution_Func P n k x a b) ∧
      FaultsIn S (xIncomplete_Beta_Function P n k x a b) := by
  intro k
  induction k with
  | zero => intro i j a b _ _ h; exact absurd h (Nat.not_lt_zero _)
  | succ k ih =>
    intro i j a b hi hj hk
    -- a parameter below 1 has a positive number of steps left
    have stepA : a < 1 → ∃ i', i = i' + 1 ∧ 1 - (a + 1) ≤ ((i' : ℕ) : α) := by
      intro ha
      cases i with
      | zero =>
        exfalso
        simp only [Nat.cast_zero] at hi
        linarith
      | succ i' =>
        refine ⟨i', rfl, ?_⟩
        push_cast at hi
        linarith
    have stepB : b < 1 → ∃ j', j = j' + 1 ∧ 1 - (b + 1) ≤ ((j' : ℕ) : α) := by
      intro hb
      cases j with
      | zero =>
        exfalso
        simp only [Nat.cast_zero] at hj
        linarith
      | succ j' =>
        refine ⟨j', rfl, ?_⟩
        push_cast at hj
        linarith
    have callA : a < 1 →
        FaultsIn S (xBeta_Distribution_Func P n k x (a + 1) b) ∧
        FaultsIn S (xIncomplete_Beta_Function P n k x (a + 1) b) := by
      intro ha
      obtain ⟨i', rfl, hi'⟩ := stepA ha
      exact ih i' j (a + 1) b hi' hj (by omega)
    have callB : b < 1 →
        FaultsIn S (xBeta_Distribution_Func P n k x a (b + 1)) ∧
        FaultsIn S (xIncomplete_Beta_Function P n k x a (b + 1)) := by
      intro hb
      obtain ⟨j', rfl, hj'⟩ := stepB hb
      exact ih i j' a (b + 1) hi hj' (by omega)
    rw [xBeta_Distribution_Func_eq_cdfBranch, xIncomplete_Beta_Function_eq_rawBranch]
    cases hr : selectedBranch a b with
    | continuedFraction =>
      have h := (selectedBranch_eq_iff a b _).mp hr
      obtain ⟨c1, c2⟩ := hcf a b h.1 h.2
      by_cases hx : x ≤ (a - 1) / (a + b - 2)
      · simp only [cdfBranch, rawBranch, if_pos hx]
        exact ⟨c1 hx, c1 hx⟩
      · simp only [cdfBranch, rawBranch, if_neg hx]
        constructor <;>
        · intro f hf
          cases hc : Beta_Continued_Fraction P n (1 - x) b a with
          | error g =>
            rw [hc] at hf
            simp only [Except.error.injEq] at hf
            exact hf ▸ c2 hx g hc
          | ok c =>
            rw [hc] at hf
            simp at hf
    | bothBelow =>
      have h := (selectedBranch_eq_iff a b _).mp hr
      obtain ⟨a1, a2⟩ := callA h.1
      obtain ⟨b1, b2⟩ := callB h.2
      simp only [cdfBranch, rawBranch]
      constructor
      · intro f hf
        cases hu : xBeta_Distribution_Func P n k x (a + 1) b with
        | error g =>
          rw [hu] at hf
          simp only [Except.error.injEq] at hf
          exact hf ▸ a1 g hu
        | ok u =>
          cases hv : xBeta_Distribution_Func P n k x a (b + 1) with
          | error g =>
            rw [hu, hv] at hf
            simp only [Except.error.injEq] at hf
            exact hf ▸ b1 g hv
          | ok v =>
            rw [hu, hv] at hf
            simp at hf
      · intro f hf
        cases hu : xIncomplete_Beta_Function P n k x (a + 1) b with
        | error g =>
          rw [hu] at hf
          simp only [Except.error.injEq] at hf
          exact hf ▸ a2 g hu
        | ok u =>
          cases hv : xIncomplete_Beta_Function P n k x a (b + 1) with
          | error g =>
            rw [hu, hv] at hf
            simp only [Except.error.injEq] at hf
            exact hf ▸ b2 g hv
          | ok v =>
            rw [hu, hv] at hf
            simp at hf
    | aOne =>
      simp only [cdfBranch, rawBranch]
      constructor <;> intro f hf <;> simp at hf
    | bOne =>
      simp only [cdfBranch, rawBranch]
      constructor <;> intro f hf <;> simp at hf
    | aBelow =>
      have h := (selectedBranch_eq_iff a b _).mp hr
      obtain ⟨a1, a2⟩ := callA h.1
      simp only [cdfBranch, rawBranch]
      constructor
      · intro f hf
        cases hu : xBeta_Distribution_Func P n k x (a + 1) b with
        | error g =>
          rw [hu] at hf
          simp only [Except.error.injEq] at hf
          exact hf ▸ a1 g hu
        | ok u =>
          rw [hu] at hf
          simp at hf
      · intro f hf
        cases hu : xIncomplete_Beta_Function P n k x (a + 1) b with
        | error g =>
          rw [hu] at hf
          simp only [Except.error.injEq] at hf
          exact hf ▸ a2 g hu
        | ok u =>
          rw [hu] at hf
          simp at hf
    | bBelow =>
      have h := (selectedBranch_eq_iff a b _).mp hr
      obtain ⟨b1, b2⟩ := callB h.2
      simp only [cdfBranch, rawBranch]
      constructor
      · intro f hf
        cases hv : xBeta_Distribution_Func P n k x a (b + 1) with
        | error g =>
          rw [hv] at hf
          simp only [Except.error.injEq] at hf
          exact hf ▸ b1 g hv
        | ok v =>
          rw [hv] at hf
          simp at hf
      · intro f hf
        cases hv : xIncomplete_Beta_Function P n k x a (b + 1) with
        | error g =>
          rw [hv] at hf
          simp only [Except.error.injEq] at hf
          exact hf ▸ b2 g hv
        | ok v =>
          rw [hv] at hf
          simp at hf

/-- Without a fault of the continued fraction other than `iterations`, the
dispatch does not run out of depth once the budget exceeds `i + j`. -/
theorem dispatch_no_depth_fault (P : Platform α) (n : Nat) (x : α) (k i j : Nat) (a b : α)
    (hi : 1 - a ≤ i) (hj : 1 - b ≤ j) (hk : i + j < k) :
    xBeta_Distribution_Func P n k x a b ≠ .error .depth ∧
    xIncomplete_Beta_Function P n k x a b ≠ .error .depth := by
  obtain ⟨h1, h2⟩ := dispatch_faults P n x (fun f => f = .iterations)
    (fun p q _ _ => ⟨fun _ => Beta_Continued_Fraction_fault P n x p q,
      fun _ => Beta_Continued_Fraction_fault P n (1 - x) q p⟩) k i j a b hi hj hk
  exact ⟨fun h => Fault.noConfusion (h1 _ h), fun h => Fault.noConfusion (h2 _ h)⟩

/-- If the continued fraction returns wherever the dispatch calls it, the
dispatch returns once the depth budget exceeds `i + j`. -/
theorem dispatch_returns (P : Platform α) (n : Nat) (x : α)
    (hcf : ∀ p q : α, 1 < p → 1 < q →
      (x ≤ (p - 1) / (p + q - 2) → ∃ c, Beta_Continued_Fraction P n x p q = .ok c) ∧
      (¬ x ≤ (p - 1) / (p + q - 2) → ∃ c, Beta_Continued_Fraction P n (1 - x) q p = .ok c))
    (k i j : Nat) (a b : α) (hi : 1 - a ≤ i) (hj : 1 - b ≤ j) (hk : i + j < k) :
    (∃ v, xBeta_Distribution_Func P n k x a b = .ok v) ∧
    (∃ w, xIncomplete_Beta_Function P n k x a b = .ok w) := by
  obtain ⟨h1, h2⟩ := dispatch_faults P n x (fun _ => False)
    (fun p q hp hq =>
      ⟨(fun hx f hf => by
        obtain ⟨c, hc⟩ := (hcf p q hp hq).1 hx
        rw [hc] at hf
        cases hf),
       (fun hx f hf => by
        obtain ⟨c, hc⟩ := (hcf p q hp hq).2 hx
        rw [hc] at hf
        cases hf)⟩) k i j a b hi hj hk
  exact ⟨exists_ok_of_faultsIn_false h1, exists_ok_of_faultsIn_false h2⟩

end Termination

/-- C14: for `a > 0`, `b > 0` the region recursion of
`xBeta_Distribution_Func` and of `xIncomplete_Beta_Function` terminates
within two nested levels: with three activations allowed neither function
runs out of depth (one activation is enough when `a >= 1` and `b >= 1`, two
when one of them is), and if `Beta_Continued_Fraction` returns wherever the
dispatch calls it, both functions return a value. -/
theorem region_recursion_terminates {α : Type} [LinearOrderedField α]
    (P : Platform α) (n d : Nat) (x a b : α) (ha : 0 < a) (hb : 0 < b) :
    xBeta_Distribution_Func P n (d + 3) x a b ≠ .error .depth ∧
    xIncomplete_Beta_Function P n (d + 3) x a b ≠ .error .depth ∧
    (1 ≤ a → 1 ≤ b →
      xBeta_Distribution_Func P n (d + 1) x a b ≠ .error .depth ∧
      xIncomplete_Beta_Function P n (d + 1) x a b ≠ .error .depth) ∧
    (1 ≤ a ∨ 1 ≤ b →
      xBeta_Distribution_Func P n (d + 2) x a b ≠ .error .depth ∧
      xIncomplete_Beta_Function P n (d + 2) x a b ≠ .error .depth) ∧
    ((∀ p q : α, 1 < p → 1 < q →
        (x ≤ (p - 1) / (p + q - 2) → ∃ c, Beta_Continued_Fraction P n x p q = .ok c) ∧
        (¬ x ≤ (p - 1) / (p + q - 2) →
          ∃ c, Beta_Continued_Fraction P n (1 - x) q p = .ok c)) →
      (∃ v, xBeta_Distribution_Func P n (d + 3) x a b = .ok v) ∧
      (∃ w, xIncomplete_Beta_Function P n (d + 3) x a b = .ok w)) := by
  have a1 : 1 - a ≤ ((1 : ℕ) : α) := by
    rw [Nat.cast_one]; linarith
  have b1 : 1 - b ≤ ((1 : ℕ) : α) := by
    rw [Nat.cast_one]; linarith
  have a0 : 1 ≤ a → 1 - a ≤ ((0 : ℕ) : α) := by
    intro h; rw [Nat.cast_zero]; linarith
  have b0 : 1 ≤ b → 1 - b ≤ ((0 : ℕ) : α) := by
    intro h; rw [Nat.cast_zero]; linarith
  have h3 := dispatch_no_depth_fault P n x (d + 3) 1 1 a b a1 b1 (by omega)
  refine ⟨h3.1, h3.2, fun h1 h2 => ?_, fun h => ?_, fun hcf => ?_⟩
  · exact dispatch_no_depth_fault P n x (d + 1) 0 0 a b (a0 h1) (b0 h2) (by omega)
  · rcases h with h | h
    · exact dispatch_no_depth_fault P n x (d + 2) 0 1 a b (a0 h) b1 (by omega)
    · exact dispatch_no_depth_fault P n x (d + 2) 1 0 a b a1 (b0 h) (by omega)
  · exact dispatch_returns P n x hcf (d + 3) 1 1 a b a1 b1 (by omega)

/-- Witness of C14: `a = b = 1/2`; at `x = 1` every continued fraction the
dispatch calls is at `1 - x = 0` and returns without iterating. -/
theorem region_recursion_terminates_witness :
    (∃ v, xBeta_Distribution_Func (Platform.x86 Real.Gamma
        (fun z => Real.log (Real.Gamma z)) Real.exp Real.log (fun x y => x ^ y))
        0 3 1 (1 / 2) (1 / 2) = .ok v) ∧
    (∃ w, xIncomplete_Beta_Function (Platform.x86 Real.Gamma
        (fun z => Real.log (Real.Gamma z)) Real.exp Real.log (fun x y => x ^ y))
        0 3 1 (1 / 2) (1 / 2) = .ok w) :=
  (region_recursion_terminates _ 0 0 1 (1 / 2) (1 / 2) (by norm_num) (by norm_num)).2.2.2.2
    (fun p q hp hq =>
      ⟨fun hx => absurd hx (by
          rw [not_le, div_lt_one (by linarith)]
          linarith),
       fun _ => ⟨0, by simp [Beta_Continued_Fraction]⟩⟩)

/-- C15 (as stated, refuted): at `a = 3`, `b = 1/2` the bound
`ceil(1-a) + ceil(1-b)` is `-1`, while the dispatch makes one reduction step
(one activation is not enough, two are). -/
theorem reduction_steps_counterexample :
    ⌈(1 : ℝ) - 3⌉ + ⌈(1 : ℝ) - 1 / 2⌉ = -1 ∧
    xBeta_Distribution_Func (Platform.x86 Real.Gamma (fun z => Real.log (Real.Gamma z))
        Real.exp Real.log (fun x y => x ^ y)) 0 1 (1 / 2) 3 (1 / 2) = .error .depth ∧
    xIncomplete_Beta_Function (Platform.x86 Real.Gamma (fun z => Real.log (Real.Gamma z))
        Real.exp Real.log (fun x y => x ^ y)) 0 1 (1 / 2) 3 (1 / 2) = .error .depth ∧
    xBeta_Distribution_Func (Platform.x86 Real.Gamma (fun z => Real.log (Real.Gamma z))
        Real.exp Real.log (fun x y => x ^ y)) 0 2 (1 / 2) 3 (1 / 2) ≠ .error .depth ∧
    xIncomplete_Beta_Function (Platform.x86 Real.Gamma (fun z => Real.log (Real.Gamma z))
        Real.exp Real.log (fun x y => x ^ y)) 0 2 (1 / 2) 3 (1 / 2) ≠ .error .depth ∧
    ¬ ∃ s : ℕ, (s : ℤ) ≤ ⌈(1 : ℝ) - 3⌉ + ⌈(1 : ℝ) - 1 / 2⌉ ∧
        xBeta_Distribution_Func (Platform.x86 Real.Gamma (fun z => Real.log (Real.Gamma z))
          Real.exp Real.log (fun x y => x ^ y)) 0 (s + 1) (1 / 2) 3 (1 / 2) ≠ .error .depth := by
  have c1 : ⌈(1 : ℝ) - 3⌉ = -2 := by
    rw [Int.ceil_eq_iff]; norm_num
  have c2 : ⌈(1 : ℝ) - 1 / 2⌉ = 1 := by
    rw [Int.ceil_eq_iff]; norm_num
  have hs : ⌈(1 : ℝ) - 3⌉ + ⌈(1 : ℝ) - 1 / 2⌉ = -1 := by
    rw [c1, c2]; norm_num
  have h2 := dispatch_no_depth_fault
    (Platform.x86 Real.Gamma (fun z => Real.log (Real.Gamma z)) Real.exp Real.log
      (fun x y => x ^ y)) 0 (1 / 2) 2 0 1 3 (1 / 2) (by norm_num) (by norm_num) (by norm_num)
  refine ⟨hs, ?_, ?_, h2.1, h2.2, ?_⟩
  · norm_num [xBeta_Distribution_Func]
  · norm_num [xIncomplete_Beta_Function]
  · rintro ⟨s, hle, -⟩
    rw [hs] at hle
    have : (0 : ℤ) ≤ (s : ℤ) := Int.natCast_nonneg s
    omega

/-- C15 (amended): the number of nested reduction steps of
`xBeta_Distribution_Func` and `xIncomplete_Beta_Function` is at most
`max(0, ceil(1-a)) + max(0, ceil(1-b))`: a depth budget of that many steps
(one activation more) is never exhausted, and if `Beta_Continued_Fraction`
returns wherever the dispatch calls it, both functions return a value
within that budget.  This holds for all `a`, `b`, in particular for
`a > 0`, `b > 0`. -/
theorem reduction_steps_le_ceil {α : Type} [LinearOrderedField α] [FloorRing α]
    (P : Platform α) (n : Nat) (x a b : α) :
    xBeta_Distribution_Func P n (⌈1 - a⌉.toNat + ⌈1 - b⌉.toNat + 1) x a b ≠ .error .depth ∧
    xIncomplete_Beta_Function P n (⌈1 - a⌉.toNat + ⌈1 - b⌉.toNat + 1) x a b
      ≠ .error .depth ∧
    ((∀ p q : α, 1 < p → 1 < q →
        (x ≤ (p - 1) / (p + q - 2) → ∃ c, Beta_Continued_Fraction P n x p q = .ok c) ∧
        (¬ x ≤ (p - 1) / (p + q - 2) →
          ∃ c, Beta_Continued_Fraction P n (1 - x) q p = .ok c)) →
      (∃ v, xBeta_Distribution_Func P n (⌈1 - a⌉.toNat + ⌈1 - b⌉.toNat + 1) x a b = .ok v) ∧
      (∃ w, xIncomplete_Beta_Function P n (⌈1 - a⌉.toNat + ⌈1 - b⌉.toNat + 1) x a b
        = .ok w)) := by
  have hi : 1 - a ≤ ((⌈1 - a⌉.toNat : ℕ) : α) := by
    rw [Int.ceil_toNat]; exact Nat.le_ceil _
  have hj : 1 - b ≤ ((⌈1 - b⌉.toNat : ℕ) : α) := by
    rw [Int.ceil_toNat]; exact Nat.le_ceil _
  have h := dispatch_no_depth_fault P n x _ _ _ a b hi hj (Nat.lt_succ_self _)
  exact ⟨h.1, h.2, fun hcf => dispatch_returns P n x hcf _ _ _ a b hi hj (Nat.lt_succ_self _)⟩

/-- Witness of C15 (amended): `a = b = 1/2`, where the bound is `1 + 1`; at
`x = 1` every continued fraction the dispatch calls returns. -/
theorem reduction_steps_le_ceil_witness :
    (∃ v, xBeta_Distribution_Func (Platform.x86 Real.Gamma
        (fun z => Real.log (Real.Gamma z)) Real.exp Real.log (fun x y => x ^ y))
        0 (⌈(1 : ℝ) - 1 / 2⌉.toNat + ⌈(1 : ℝ) - 1 / 2⌉.toNat + 1) 1 (1 / 2) (1 / 2) = .ok v) ∧
    (∃ w, xIncomplete_Beta_Function (Platform.x86 Real.Gamma
        (fun z => Real.log (Real.Gamma z)) Real.exp Real.log (fun x y => x ^ y))
        0 (⌈(1 : ℝ) - 1 / 2⌉.toNat + ⌈(1 : ℝ) - 1 / 2⌉.toNat + 1) 1 (1 / 2) (1 / 2) = .ok w) :=
  (reduction_steps_le_ceil _ 0 1 (1 / 2) (1 / 2)).2.2
    (fun p q hp hq =>
      ⟨fun hx => absurd hx (by
          rw [not_le, div_lt_one (by linarith)]
          linarith),
       fun _ => ⟨0, by simp [Beta_Continued_Fraction]⟩⟩)


/-- Sixteen terms of the series of `log 2` in powers of `1/3` give
`ln_LDBL_MAX / 16384 <= log 2`. -/
theorem ln_LDBL_MAX_div_le_log_two :
    (113565234062941435 : ℝ) / 10000000000000 / 16384 ≤ Real.log 2 := by
  have h := Real.hasSum_log_one_add_inv (a := 1) one_pos
  have h2 : Real.log (1 + (1 : ℝ)⁻¹) = Real.log 2 := by norm_num
  rw [h2] at h
  have hs := sum_le_hasSum (Finset.range 16) (fun i _ => by positivity) h
  simp only [Finset.sum_range_succ, Finset.sum_range_zero] at hs
  norm_num at hs
  linarith

/-- The constant `ln_LDBL_MAX` of the source is below the logarithm of
`2^16384`, so `exp(ln_LDBL_MAX) <= 2^16384`. -/
theorem exp_ln_LDBL_MAX_le : Real.exp ln_LDBL_MAX ≤ (2 : ℝ) ^ 16384 := by
  rw [← Real.le_log_iff_exp_le (by positivity), Real.log_pow]
  have h := ln_LDBL_MAX_div_le_log_two
  unfold ln_LDBL_MAX
  rw [div_le_iff₀ (by norm_num)] at h
  push_cast
  linarith

/-- C12: overflow saturation.  `Beta_Function(a,b)` is
`min(xBeta_Function(a,b), DBL_MAX)` and `Incomplete_Beta_Function(x,a,b)` is
`min(xIncomplete_Beta_Function(x,a,b), DBL_MAX)` whenever the latter returns
(a fault is passed on), so neither public result exceeds `DBL_MAX`; in the
log-space branch of `xBeta_Function` the result is `LDBL_MAX` when
`lnbeta > ln_LDBL_MAX` and `exp(lnbeta)` otherwise, and, `expl` being the
exponential and `exp(ln_LDBL_MAX) <= LDBL_MAX`, it never exceeds `LDBL_MAX`. -/
theorem overflow_saturation (P : Platform ℝ) (hexp : ∀ t, P.expl t = Real.exp t)
    (hmax : Real.exp ln_LDBL_MAX ≤ P.LDBL_MAX) :
    (∀ a b, Beta_Function P a b = min (xBeta_Function P a b) P.DBL_MAX) ∧
    (∀ a b, Beta_Function P a b ≤ P.DBL_MAX) ∧
    (∀ n d x a b v, xIncomplete_Beta_Function P n d x a b = .ok v →
      Incomplete_Beta_Function P n d x a b = .ok (min v P.DBL_MAX)) ∧
    (∀ n d x a b f, xIncomplete_Beta_Function P n d x a b = .error f →
      Incomplete_Beta_Function P n d x a b = .error f) ∧
    (∀ n d x a b r, Incomplete_Beta_Function P n d x a b = .ok r → r ≤ P.DBL_MAX) ∧
    (∀ a b, ¬ a + b ≤ P.Gamma_Function_Max_Arg →
      (P.xLn_Gamma_Function a + P.xLn_Gamma_Function b - P.xLn_Gamma_Function (a + b)
          > ln_LDBL_MAX → xBeta_Function P a b = P.LDBL_MAX) ∧
      (¬ P.xLn_Gamma_Function a + P.xLn_Gamma_Function b - P.xLn_Gamma_Function (a + b)
          > ln_LDBL_MAX →
        xBeta_Function P a b
          = P.expl (P.xLn_Gamma_Function a + P.xLn_Gamma_Function b
              - P.xLn_Gamma_Function (a + b)))) ∧
    (∀ a b, ¬ a + b ≤ P.Gamma_Function_Max_Arg → xBeta_Function P a b ≤ P.LDBL_MAX) := by
  have hB : ∀ a b, Beta_Function P a b = min (xBeta_Function P a b) P.DBL_MAX := by
    intro a b
    unfold Beta_Function
    by_cases h : xBeta_Function P a b < P.DBL_MAX
    · simp only [if_pos h, min_eq_left h.le]
    · simp only [if_neg h, min_eq_right (not_lt.mp h)]
  have hI : ∀ n d x a b v, xIncomplete_Beta_Function P n d x a b = .ok v →
      Incomplete_Beta_Function P n d x a b = .ok (min v P.DBL_MAX) := by
    intro n d x a b v hv
    unfold Incomplete_Beta_Function
    rw [hv]
    by_cases h : v > P.DBL_MAX
    · simp only [if_pos h, min_eq_right (le_of_lt h)]
    · simp only [if_neg h, min_eq_left (not_lt.mp h)]
  have hlog : ∀ a b, ¬ a + b ≤ P.Gamma_Function_Max_Arg →
      (P.xLn_Gamma_Function a + P.xLn_Gamma_Function b - P.xLn_Gamma_Function (a + b)
          > ln_LDBL_MAX → xBeta_Function P a b = P.LDBL_MAX) ∧
      (¬ P.xLn_Gamma_Function a + P.xLn_Gamma_Function b - P.xLn_Gamma_Function (a + b)
          > ln_LDBL_MAX →
        xBeta_Function P a b
          = P.expl (P.xLn_Gamma_Function a + P.xLn_Gamma_Function b
              - P.xLn_Gamma_Function (a + b))) := by
    intro a b h
    constructor
    · intro hc
      simp only [xBeta_Function, if_neg h, if_pos hc]
    · intro hc
      simp only [xBeta_Function, if_neg h, if_neg hc]
  refine ⟨hB, fun a b => ?_, hI, ?_, ?_, hlog, ?_⟩
  · rw [hB]
    exact min_le_right _ _
  · intro n d x a b f hf
    unfold Incomplete_Beta_Function
    rw [hf]
  · intro n d x a b r hr
    cases hv : xIncomplete_Beta_Function P n d x a b with
    | error f =>
      unfold Incomplete_Beta_Function at hr
      rw [hv] at hr
      cases hr
    | ok v =>
      rw [hI n d x a b v hv] at hr
      cases hr
      exact min_le_right _ _
  · intro a b h
    by_cases hc : P.xLn_Gamma_Function a + P.xLn_Gamma_Function b
        - P.xLn_Gamma_Function (a + b) > ln_LDBL_MAX
    · rw [(hlog a b h).1 hc]
    · rw [(hlog a b h).2 hc, hexp]
      exact le_trans (Real.exp_le_exp.mpr (not_lt.mp hc)) hmax

/-- Witness of C12 on the exact platform: `a = 100`, `b = 72` lies beyond
`Gamma_Function_Max_Arg() = 171`, in the log-space branch. -/
theorem overflow_saturation_witness :
    xBeta_Function (Platform.x86 Real.Gamma (fun z => Real.log (Real.Gamma z))
        Real.exp Real.log (fun x y => x ^ y)) 100 72
      ≤ (Platform.x86 Real.Gamma (fun z => Real.log (Real.Gamma z))
        Real.exp Real.log (fun x y => x ^ y)).LDBL_MAX ∧
    Beta_Function (Platform.x86 Real.Gamma (fun z => Real.log (Real.Gamma z))
        Real.exp Real.log (fun x y => x ^ y)) 100 72
      ≤ (Platform.x86 Real.Gamma (fun z => Real.log (Real.Gamma z))
        Real.exp Real.log (fun x y => x ^ y)).DBL_MAX :=
  ⟨(overflow_saturation _ (fun _ => rfl) exp_ln_LDBL_MAX_le).2.2.2.2.2.2 100 72
      (by norm_num [Platform.x86]),
   (overflow_saturation _ (fun _ => rfl) exp_ln_LDBL_MAX_le).2.1 100 72⟩

end BetaFunction
